import Mathlib

/-!
Verification development for the openai-log-visualizer core:
a shallow embedding of `src/lib/parse-log.ts`, `src/lib/group-events.ts`,
`src/lib/types.ts` and `src/lib/audio-player.ts`.

JavaScript runtime values produced by `JSON.parse` are modelled by the
`Json` inductive below; the platform builtins `JSON.parse` (strict JSON
grammar, whole-input) and `atob` (WHATWG forgiving-base64 decode) are
modelled explicitly, since the source calls them directly.
-/

/-- A JSON value as produced by `JSON.parse`.  Numbers are modelled as
rationals; every numeric literal exercised by the claims is a small
integer, exactly representable in a JS number. -/
inductive Json where
  | null : Json
  | bool (b : Bool) : Json
  | num (q : ℚ) : Json
  | str (s : String) : Json
  | arr (elems : List Json) : Json
  | obj (fields : List (String × Json)) : Json

/-- JS property lookup `o[k]` for our Json values: objects yield the value
of the last binding of the key (later assignments win in JS), everything
else yields `undefined` (here `none`).  No special properties such as
`length` are modelled; the source never reads them off payload values. -/
def jsGet (j : Json) (k : String) : Option Json :=
  match j with
  | .obj fields => (fields.reverse.find? (fun p => p.1 == k)).map (·.2)
  | _ => none

/-- JS truthiness of a Json value. -/
def jsTruthy : Json → Bool
  | .null => false
  | .bool b => b
  | .num q => q != 0
  | .str s => s ≠ ""
  | .arr _ => true
  | .obj _ => true

/-- JS `x || d` where `x` may be `undefined` (`none`). -/
def jsOrElse (x : Option Json) (d : Json) : Json :=
  match x with
  | some v => if jsTruthy v then v else d
  | none => d

-- ===========================================================================
-- JSON.parse model (strict JSON grammar, whole input consumed)
-- ===========================================================================

/-- JSON insignificant whitespace (RFC 8259: space, tab, LF, CR). -/
def jsonWs (c : Char) : Bool :=
  c = ' ' || c = '\t' || c = '\n' || c = '\r'

def skipWs (cs : List Char) : List Char := cs.dropWhile jsonWs

/-- Numeric value of a hex digit (0 for non-hex-digits, unused there). -/
def hexVal (c : Char) : Nat :=
  if '0' ≤ c ∧ c ≤ '9' then c.toNat - '0'.toNat
  else if 'a' ≤ c ∧ c ≤ 'f' then c.toNat - 'a'.toNat + 10
  else if 'A' ≤ c ∧ c ≤ 'F' then c.toNat - 'A'.toNat + 10
  else 0

def isHexDigitChar (c : Char) : Bool :=
  ('0' ≤ c && c ≤ '9') || ('a' ≤ c && c ≤ 'f') || ('A' ≤ c && c ≤ 'F')

/-- Parse the remainder of a JSON string literal (after the opening quote).
Returns the decoded characters and the input after the closing quote. -/
def parseStringRest : List Char → Option (List Char × List Char)
  | [] => none
  | '"' :: rest => some ([], rest)
  | '\\' :: esc =>
    match esc with
    | '"' :: rest => (parseStringRest rest).map (fun (s, r) => ('"' :: s, r))
    | '\\' :: rest => (parseStringRest rest).map (fun (s, r) => ('\\' :: s, r))
    | '/' :: rest => (parseStringRest rest).map (fun (s, r) => ('/' :: s, r))
    | 'b' :: rest => (parseStringRest rest).map (fun (s, r) => ('\x08' :: s, r))
    | 'f' :: rest => (parseStringRest rest).map (fun (s, r) => ('\x0c' :: s, r))
    | 'n' :: rest => (parseStringRest rest).map (fun (s, r) => ('\n' :: s, r))
    | 'r' :: rest => (parseStringRest rest).map (fun (s, r) => ('\r' :: s, r))
    | 't' :: rest => (parseStringRest rest).map (fun (s, r) => ('\t' :: s, r))
    | 'u' :: h1 :: h2 :: h3 :: h4 :: rest =>
      if isHexDigitChar h1 && isHexDigitChar h2 && isHexDigitChar h3 && isHexDigitChar h4 then
        let n := hexVal h1 * 4096 + hexVal h2 * 256 + hexVal h3 * 16 + hexVal h4
        (parseStringRest rest).map (fun (s, r) => (Char.ofNat n :: s, r))
      else none
    | _ => none
  | c :: rest =>
    if c.toNat < 32 then none
    else (parseStringRest rest).map (fun (s, r) => (c :: s, r))

example : parseStringRest "abc\" rest".toList =
    some ("abc".toList, " rest".toList) := by decide

/-- Digits of a digit run as a natural number. -/
def digitsToNat (ds : List Char) : Nat :=
  ds.foldl (fun acc c => acc * 10 + (c.toNat - '0'.toNat)) 0

/-- Assemble the rational value of a JSON number from its parts: sign,
decimal mantissa (integer and fraction digits together), number `k` of
fraction digits and decimal exponent `e`.  The value is
`±mant / 10^k * 10^e`; built with `mkRat` over integer arithmetic. -/
def ratOfParts (neg : Bool) (mant : Nat) (k : Nat) (e : Int) : ℚ :=
  if 0 ≤ e then
    mkRat (if neg then -((mant * 10 ^ e.toNat : Nat) : Int)
           else ((mant * 10 ^ e.toNat : Nat) : Int)) (10 ^ k)
  else
    mkRat (if neg then -(mant : Int) else (mant : Int)) (10 ^ (k + (-e).toNat))

/-- Optional exponent part of a JSON number. -/
def parseNumberExp (neg : Bool) (mant : Nat) (k : Nat) (cs : List Char) :
    Option (ℚ × List Char) :=
  match cs with
  | 'e' :: rest => parseNumberExpDigits rest
  | 'E' :: rest => parseNumberExpDigits rest
  | _ => some (ratOfParts neg mant k 0, cs)
where
  parseNumberExpDigits (cs : List Char) : Option (ℚ × List Char) :=
    let (esign, cs1) : Int × List Char :=
      match cs with
      | '+' :: rest => (1, rest)
      | '-' :: rest => (-1, rest)
      | _ => (1, cs)
    let es := cs1.takeWhile Char.isDigit
    if es.isEmpty then none
    else some (ratOfParts neg mant k (esign * (digitsToNat es : Int)),
               cs1.dropWhile Char.isDigit)

/-- Optional fraction then optional exponent, applied to integer part `ip`;
a `.` not followed by a digit is a syntax error in JSON. -/
def parseNumberFrac (neg : Bool) (ip : Nat) (cs : List Char) :
    Option (ℚ × List Char) :=
  match cs with
  | '.' :: rest =>
    let fs := rest.takeWhile Char.isDigit
    if fs.isEmpty then none
    else parseNumberExp neg (ip * 10 ^ fs.length + digitsToNat fs) fs.length
           (rest.dropWhile Char.isDigit)
  | _ => parseNumberExp neg ip 0 cs

/-- The unsigned part of a JSON number: `0 | [1-9][0-9]*`, then fraction
and exponent.  A leading `0` is not followed by further digits. -/
def parseNumberMag (neg : Bool) (cs1 : List Char) : Option (ℚ × List Char) :=
  match cs1 with
  | c :: rest =>
    if c = '0' then parseNumberFrac neg 0 rest
    else if c.isDigit then
      parseNumberFrac neg (digitsToNat (cs1.takeWhile Char.isDigit))
        (cs1.dropWhile Char.isDigit)
    else none
  | [] => none

/-- Parse a JSON number token (strict JSON grammar:
`-? (0 | [1-9][0-9]*) frac? exp?`), returning its rational value and the
unconsumed input. -/
def parseNumber (cs : List Char) : Option (ℚ × List Char) :=
  match cs with
  | '-' :: rest => parseNumberMag true rest
  | _ => parseNumberMag false cs

example : parseNumber "1234".toList = some ((1234 : ℚ), []) := by decide
example : parseNumber "12e2,".toList = some ((1200 : ℚ), [',']) := by decide
example : parseNumber "-0.25".toList = some (mkRat (-1) 4, []) := by decide
example : parseNumber "01".toList = some ((0 : ℚ), ['1']) := by decide
example : parseNumber "2.5e-1".toList = some (mkRat 1 4, []) := by decide

mutual

/-- Parse one JSON value (fuel-bounded recursion; the fuel passed by
`jsonParse` always suffices for the nesting depth of its input). -/
def parseValue (fuel : Nat) (cs : List Char) : Option (Json × List Char) :=
  match fuel with
  | 0 => none
  | fuel + 1 =>
    match skipWs cs with
    | '{' :: rest => parseMembers fuel rest
    | '[' :: rest => parseElements fuel rest
    | '"' :: rest =>
      (parseStringRest rest).map (fun (s, r) => (.str (String.mk s), r))
    | 't' :: 'r' :: 'u' :: 'e' :: rest => some (.bool true, rest)
    | 'f' :: 'a' :: 'l' :: 's' :: 'e' :: rest => some (.bool false, rest)
    | 'n' :: 'u' :: 'l' :: 'l' :: rest => some (.null, rest)
    | cs' => (parseNumber cs').map (fun (q, r) => (.num q, r))

/-- Parse an array body after the opening bracket. -/
def parseElements (fuel : Nat) (cs : List Char) : Option (Json × List Char) :=
  match fuel with
  | 0 => none
  | fuel + 1 =>
    match skipWs cs with
    | ']' :: rest => some (.arr [], rest)
    | cs' => (parseElementsItems fuel cs').map (fun (vs, r) => (.arr vs, r))

/-- Parse the non-empty element list of an array, including the closing
bracket. -/
def parseElementsItems (fuel : Nat) (cs : List Char) :
    Option (List Json × List Char) :=
  match fuel with
  | 0 => none
  | fuel + 1 =>
    match parseValue fuel cs with
    | none => none
    | some (v, r) =>
      match skipWs r with
      | ',' :: r2 =>
        (parseElementsItems fuel r2).map (fun (vs, rr) => (v :: vs, rr))
      | ']' :: r2 => some ([v], r2)
      | _ => none

/-- Parse an object body after the opening brace. -/
def parseMembers (fuel : Nat) (cs : List Char) : Option (Json × List Char) :=
  match fuel with
  | 0 => none
  | fuel + 1 =>
    match skipWs cs with
    | '}' :: rest => some (.obj [], rest)
    | cs' => (parseMembersItems fuel cs').map (fun (fs, r) => (.obj fs, r))

/-- Parse the non-empty member list of an object, including the closing
brace. -/
def parseMembersItems (fuel : Nat) (cs : List Char) :
    Option (List (String × Json) × List Char) :=
  match fuel with
  | 0 => none
  | fuel + 1 =>
    match skipWs cs with
    | '"' :: rest =>
      match parseStringRest rest with
      | none => none
      | some (k, r) =>
        match skipWs r with
        | ':' :: r2 =>
          match parseValue fuel r2 with
          | none => none
          | some (v, r3) =>
            match skipWs r3 with
            | ',' :: r4 =>
              (parseMembersItems fuel r4).map
                (fun (fs, rr) => ((String.mk k, v) :: fs, rr))
            | '}' :: r4 => some ([(String.mk k, v)], r4)
            | _ => none
        | _ => none
    | _ => none

end

/-- The token dispatch of `parseValue` (whitespace already skipped), as a
standalone function for reasoning; `parseValue (fuel+1) cs` is
definitionally `parseValueCore fuel (skipWs cs)`. -/
def parseValueCore (fuel : Nat) (cs : List Char) : Option (Json × List Char) :=
  match cs with
  | '{' :: rest => parseMembers fuel rest
  | '[' :: rest => parseElements fuel rest
  | '"' :: rest =>
    (parseStringRest rest).map (fun (s, r) => (.str (String.mk s), r))
  | 't' :: 'r' :: 'u' :: 'e' :: rest => some (.bool true, rest)
  | 'f' :: 'a' :: 'l' :: 's' :: 'e' :: rest => some (.bool false, rest)
  | 'n' :: 'u' :: 'l' :: 'l' :: rest => some (.null, rest)
  | cs' => (parseNumber cs').map (fun (q, r) => (.num q, r))

/-- Model of `JSON.parse`: parse one JSON document and require that only
whitespace follows it; anything else is a `SyntaxError` (`none`). -/
def jsonParse (s : String) : Option Json :=
  match parseValue (2 * s.toList.length + 4) s.toList with
  | some (v, rest) => if skipWs rest = [] then some v else none
  | none => none

example : jsonParse "\x7b\"type\":\"session.created\",\"n\":3\x7d" =
    some (.obj [("type", .str "session.created"), ("n", .num 3)]) := rfl
example : jsonParse "[100]" = some (.arr [.num 100]) := rfl
example : jsonParse " [ 1 , \"a\" , \x7b\"x\": true, \"y\": null\x7d ] " =
    some (.arr [.num 1, .str "a", .obj [("x", .bool true), ("y", .null)]]) := rfl
example : jsonParse "" = none := rfl
example : jsonParse "\x7b,\x7d" = none := rfl
example : jsonParse "12 3" = none := rfl

-- ===========================================================================
-- Line Decoder (src/lib/parse-log.ts, parseLogLine)
-- ===========================================================================

/-- Whitespace as recognized by JS `String.prototype.trim` and the `\s`
regex class (ASCII part; the exotic Unicode space code points never occur
in these logs and are not modelled). -/
def isWsChar (c : Char) : Bool :=
  c = ' ' || c = '\t' || c = '\n' || c = '\x0b' || c = '\x0c' || c = '\r'

/-- `line.trim()` on a character list. -/
def trimList (cs : List Char) : List Char :=
  ((cs.dropWhile isWsChar).reverse.dropWhile isWsChar).reverse

/-- Greedy `\s*`: drop leading whitespace. -/
def eatWs (cs : List Char) : List Char := cs.dropWhile isWsChar

/-- `LogSource` from types.ts: the normalized source tag. -/
inductive LogSource where
  | openai : LogSource
  | user : LogSource
deriving DecidableEq

/-- The runtime record built by `parseLogLine` (the `ParsedLogLine`
interface of types.ts; the constructed object also carries the `source`
field, which the interface omits but the code stores). -/
structure ParsedLogLine where
  timestamp : Option String
  sessionId : Option String
  source : Option LogSource
  event : Json
  rawLine : String
  lineNumber : Nat

/-- One `console.warn` record emitted by the decoder: the line number and
the first 100 characters of the payload remainder. -/
structure DecodeWarning where
  lineNumber : Nat
  content : String
deriving DecidableEq

/-- A character of the regex class `[\d:.]` (the timestamp time part). -/
def isTimeChar (c : Char) : Bool := c.isDigit || c = ':' || c = '.'

/-- Prefix match of `/^(\d{4}-\d{2}-\d{2}T[\d:.]+Z?)\s*/`: returns the
captured timestamp and the input after the whole match, or `none` without
consuming anything.  Greediness is exact: `Z` and whitespace are not in
`[\d:.]`, so the regex engine's match is the maximal `takeWhile`. -/
def tsMatch (cs : List Char) : Option (String × List Char) :=
  match cs with
  | y1 :: y2 :: y3 :: y4 :: '-' :: m1 :: m2 :: '-' :: d1 :: d2 :: 'T' :: rest =>
    if [y1, y2, y3, y4, m1, m2, d1, d2].all Char.isDigit then
      let body := rest.takeWhile isTimeChar
      if body.isEmpty then none
      else
        let (zPart, rest2) : List Char × List Char :=
          match rest.dropWhile isTimeChar with
          | 'Z' :: r => (['Z'], r)
          | r => ([], r)
        some (String.mk ([y1, y2, y3, y4, '-', m1, m2, '-', d1, d2, 'T'] ++
                body ++ zPart), eatWs rest2)
    else none
  | _ => none

/-- A character of the regex class `[a-f0-9-]` with the `i` flag. -/
def isTagChar (c : Char) : Bool :=
  c.isDigit || ('a' ≤ c && c ≤ 'f') || ('A' ≤ c && c ≤ 'F') || c = '-'

/-- Prefix match of `/^\[([a-f0-9-]+)\]\s*/i`: the bracketed session tag. -/
def uuidMatch (cs : List Char) : Option (String × List Char) :=
  match cs with
  | '[' :: rest =>
    let tag := rest.takeWhile isTagChar
    if tag.isEmpty then none
    else
      match rest.dropWhile isTagChar with
      | ']' :: r => some (String.mk tag, eatWs r)
      | _ => none
  | _ => none

/-- Case-insensitive match of one character against a letter given in both
cases. -/
def isCh (c lo hi : Char) : Bool := c = lo || c = hi

/-- The `[USER]` alternative of the source-tag regex. -/
def srcMatchUser (cs : List Char) : Option (LogSource × List Char) :=
  match cs with
  | '[' :: c1 :: c2 :: c3 :: c4 :: ']' :: r =>
    if isCh c1 'U' 'u' && isCh c2 'S' 's' && isCh c3 'E' 'e' &&
       isCh c4 'R' 'r' then some (.user, eatWs r)
    else none
  | _ => none

/-- Prefix match of `/^\[(OPENAI|USER)\]\s*/i`, normalized to uppercase
(`sourceMatch[1].toUpperCase()` in the source; normalization is the
`LogSource` constructor). -/
def srcMatch (cs : List Char) : Option (LogSource × List Char) :=
  match cs with
  | '[' :: c1 :: c2 :: c3 :: c4 :: c5 :: c6 :: ']' :: r =>
    if isCh c1 'O' 'o' && isCh c2 'P' 'p' && isCh c3 'E' 'e' &&
       isCh c4 'N' 'n' && isCh c5 'A' 'a' && isCh c6 'I' 'i' then
      some (.openai, eatWs r)
    else srcMatchUser cs
  | _ => srcMatchUser cs

/-- `parseLogLine` of parse-log.ts, with the `console.warn` side channel
made explicit as a list of emitted warnings. -/
def parseLogLineW (line : String) (lineNumber : Nat) :
    Option ParsedLogLine × List DecodeWarning :=
  let trimmedLine := trimList line.toList
  if trimmedLine.isEmpty then (none, [])
  else
    let (timestamp, r1) : Option String × List Char :=
      match tsMatch trimmedLine with
      | some (t, r) => (some t, r)
      | none => (none, trimmedLine)
    let (sessionId, r2) : Option String × List Char :=
      match uuidMatch r1 with
      | some (t, r) => (some t, r)
      | none => (none, r1)
    let (source, r3) : Option LogSource × List Char :=
      match srcMatch r2 with
      | some (s, r) => (some s, r)
      | none => (none, r2)
    let jsonStr := String.mk r3
    match jsonParse jsonStr with
    | some event =>
      (some { timestamp, sessionId, source, event, rawLine := line,
              lineNumber }, [])
    | none => (none, [⟨lineNumber, String.mk (r3.take 100)⟩])

/-- `parseLogLine` as used by callers (warnings go to the console). -/
def parseLogLine (line : String) (lineNumber : Nat) : Option ParsedLogLine :=
  (parseLogLineW line lineNumber).1

example :
    parseLogLine "2024-01-15T10:30:00.000Z [abc-123] [OPENAI] \x7b\"type\":\"x\"\x7d" 7 =
      some ⟨some "2024-01-15T10:30:00.000Z", some "abc-123", some .openai,
        .obj [("type", .str "x")],
        "2024-01-15T10:30:00.000Z [abc-123] [OPENAI] \x7b\"type\":\"x\"\x7d", 7⟩ := rfl
example : parseLogLine "   " 3 = none := rfl
example : parseLogLine "\x7b\"a\":1\x7d" 3 =
    some ⟨none, none, none, .obj [("a", .num 1)], "\x7b\"a\":1\x7d", 3⟩ := rfl
example : parseLogLineW "[oops" 4 = (none, [⟨4, "[oops"⟩]) := rfl
example : parseLogLine "[100]" 1 = none := rfl
example : parseLogLine "[USER] \x7b\"type\":\"t\"\x7d" 2 =
    some ⟨none, none, some .user, .obj [("type", .str "t")],
      "[USER] \x7b\"type\":\"t\"\x7d", 2⟩ := rfl

-- ===========================================================================
-- Session Segmenter (src/lib/parse-log.ts, parseLogFile)
-- ===========================================================================

/-- `content.split(/\r?\n/)`: split on `\n` or `\r\n`; a lone `\r` is kept. -/
def splitLinesAux : List Char → List Char → List String
  | [], acc => [String.mk acc.reverse]
  | '\r' :: '\n' :: rest, acc => String.mk acc.reverse :: splitLinesAux rest []
  | '\n' :: rest, acc => String.mk acc.reverse :: splitLinesAux rest []
  | c :: rest, acc => splitLinesAux rest (c :: acc)

def splitLines (content : String) : List String :=
  splitLinesAux content.toList []

example : splitLines "a\nb\r\nc" = ["a", "b", "c"] := by decide
example : splitLines "a\n" = ["a", ""] := by decide

/-- The `Session` record of types.ts.  The implicit-session branch builds
the object without `sessionId`/`model`/`voice`, i.e. those are `none`;
`sessionId`, `model` and `voice` hold whatever JS value sat in the payload
(the interface says `string`, but the cast is unchecked). -/
structure Session where
  id : String
  sessionId : Option Json
  startTime : Option String
  events : List ParsedLogLine
  model : Option Json
  voice : Option Json

/-- Does this decoded line carry `event.type === "session.created"`? -/
def isSessionCreated (p : ParsedLogLine) : Bool :=
  match jsGet p.event "type" with
  | some (.str t) => t == "session.created"
  | _ => false

/-- The session opened for a `session.created` line. -/
def newSessionOf (counter : Nat) (p : ParsedLogLine) : Session :=
  let sessionData := jsGet p.event "session"
  { id := "session-" ++ toString counter
    sessionId := sessionData.bind (fun s => jsGet s "id")
    startTime := p.timestamp
    events := [p]
    model := sessionData.bind (fun s => jsGet s "model")
    voice := sessionData.bind (fun s => jsGet s "voice") }

/-- The implicit session synthesized for orphan lines preceding the first
start marker. -/
def implicitSessionOf (counter : Nat) (p : ParsedLogLine) : Session :=
  { id := "session-" ++ toString counter
    sessionId := none
    startTime := p.timestamp
    events := [p]
    model := none
    voice := none }

/-- The loop of `parseLogFile`.  In the source, `currentSession` is a
reference to the session most recently pushed onto `sessions`, mutated in
place; here the completed sessions and the current one are kept apart and
re-joined at the end. -/
def parseLogGo : List String → Nat → List Session → Option Session → Nat →
    List Session
  | [], _, done, cur, _ => done ++ cur.toList
  | l :: ls, i, done, cur, counter =>
    match parseLogLine l i with
    | none => parseLogGo ls (i + 1) done cur counter
    | some parsed =>
      if isSessionCreated parsed then
        parseLogGo ls (i + 1) (done ++ cur.toList)
          (some (newSessionOf (counter + 1) parsed)) (counter + 1)
      else
        match cur with
        | some s =>
          parseLogGo ls (i + 1) done
            (some { s with events := s.events ++ [parsed] }) counter
        | none =>
          parseLogGo ls (i + 1) done
            (some (implicitSessionOf (counter + 1) parsed)) (counter + 1)

/-- `parseLogFile` of parse-log.ts. -/
def parseLogFile (content : String) : List Session :=
  parseLogGo (splitLines content) 1 [] none 0

/-- The decoded lines of an input, in order, with their 1-based line
numbers — the specification-side stream that sessions must partition. -/
def decodedLinesGo : List String → Nat → List ParsedLogLine
  | [], _ => []
  | l :: ls, i =>
    match parseLogLine l i with
    | none => decodedLinesGo ls (i + 1)
    | some parsed => parsed :: decodedLinesGo ls (i + 1)

def decodedLines (content : String) : List ParsedLogLine :=
  decodedLinesGo (splitLines content) 1

/-- Concrete segmentation example: `session.created` at lines 1 and 5. -/
def segContent : String :=
  "\x7b\"type\":\"session.created\",\"event_id\":\"a\",\"session\":\x7b\"id\":\"s1\",\"model\":\"gpt-x\"\x7d\x7d\n" ++
  "\x7b\"type\":\"conversation.created\",\"event_id\":\"b\"\x7d\n" ++
  "\x7b\"type\":\"response.created\",\"event_id\":\"c\"\x7d\n" ++
  "\x7b\"type\":\"response.done\",\"event_id\":\"d\"\x7d\n" ++
  "\x7b\"type\":\"session.created\",\"event_id\":\"e\",\"session\":\x7b\"id\":\"s2\"\x7d\x7d\n" ++
  "\x7b\"type\":\"error\",\"event_id\":\"f\"\x7d"

example :
    (parseLogFile segContent).map (fun s => s.events.map (·.lineNumber)) =
      [[1, 2, 3, 4], [5, 6]] := by decide
example : (parseLogFile segContent).map (·.id) = ["session-1", "session-2"] := by
  decide

-- ===========================================================================
-- Event Grouping Engine (src/lib/group-events.ts and src/lib/types.ts)
-- ===========================================================================

/-- `DELTA_EVENT_TYPES` from types.ts. -/
def DELTA_EVENT_TYPES : List String :=
  ["response.audio.delta",
   "response.audio_transcript.delta",
   "response.text.delta",
   "response.function_call_arguments.delta",
   "conversation.item.input_audio_transcription.delta"]

/-- `PHASE_EVENTS` from types.ts. -/
def PHASE_EVENTS.SPEECH_START : String := "input_audio_buffer.speech_started"

def PHASE_EVENTS.SPEECH_STOP : String := "input_audio_buffer.speech_stopped"

def PHASE_EVENTS.RESPONSE_START : String := "response.created"

def PHASE_EVENTS.FUNCTION_CALL : String := "response.function_call_arguments.done"

/-- `event.event.type as string` compared with a string literal via `===`:
true exactly when the `type` field holds that very string. -/
def typeIs (e : ParsedLogLine) (s : String) : Bool :=
  match jsGet e.event "type" with
  | some (.str t) => t == s
  | _ => false

/-- `isDeltaEvent` of group-events.ts, applied to the raw `type` value
(non-string values are never in the string list). -/
def isDeltaLine (e : ParsedLogLine) : Bool :=
  match jsGet e.event "type" with
  | some (.str t) => DELTA_EVENT_TYPES.contains t
  | _ => false

/-- `DeltaGroup` of group-events.ts (the `kind` discriminant is the
constructor).  A group is only ever created from an event whose `type` is
a string in `DELTA_EVENT_TYPES`, so `eventType` is a `String`. -/
structure DeltaGroup where
  eventType : String
  events : List ParsedLogLine
  firstLineNumber : Nat
  lastLineNumber : Nat

/-- One entry of `Array<ParsedLogLine | DeltaGroup>`. -/
inductive CycleItem where
  | line (e : ParsedLogLine) : CycleItem
  | group (g : DeltaGroup) : CycleItem

/-- One step of the `aggregateDeltaEvents` loop: state is the result list
plus the open `currentGroup`. -/
def aggStep (st : List CycleItem × Option DeltaGroup) (e : ParsedLogLine) :
    List CycleItem × Option DeltaGroup :=
  let (result, currentGroup) := st
  match jsGet e.event "type" with
  | some (.str t) =>
    if DELTA_EVENT_TYPES.contains t then
      match currentGroup with
      | some g =>
        if g.eventType == t then
          (result,
           some { g with
                  events := g.events ++ [e]
                  lastLineNumber := e.lineNumber })
        else
          (result ++ [.group g], some ⟨t, [e], e.lineNumber, e.lineNumber⟩)
      | none => (result, some ⟨t, [e], e.lineNumber, e.lineNumber⟩)
    else
      match currentGroup with
      | some g => (result ++ [.group g, .line e], none)
      | none => (result ++ [.line e], none)
  | _ =>
    match currentGroup with
    | some g => (result ++ [.group g, .line e], none)
    | none => (result ++ [.line e], none)

/-- The final flush of the `aggregateDeltaEvents` loop. -/
def aggFinish : List CycleItem × Option DeltaGroup → List CycleItem
  | (result, some g) => result ++ [.group g]
  | (result, none) => result

/-- The events held by the open run, if any. -/
def optGroupEvents : Option DeltaGroup → List ParsedLogLine
  | some g => g.events
  | none => []

/-- `aggregateDeltaEvents` of group-events.ts. -/
def aggregateDeltaEvents (events : List ParsedLogLine) : List CycleItem :=
  aggFinish (events.foldl aggStep ([], none))

/-- `PhaseType` of group-events.ts. -/
inductive PhaseType where
  | speech : PhaseType
  | response : PhaseType
  | function_call : PhaseType
deriving DecidableEq

/-- `tokenUsage` of a `ResponseCycle`: the raw JS values of
`usage.input_tokens || 0` etc. (in well-formed logs these are numbers). -/
structure TokenUsage where
  input : Json
  output : Json
  total : Json

/-- `ResponseCycle` of group-events.ts. -/
structure ResponseCycle where
  responseId : Option Json
  startEvent : ParsedLogLine
  endEvent : Option ParsedLogLine
  items : List CycleItem
  tokenUsage : Option TokenUsage

/-- `EventGroup` of group-events.ts (`PhaseMarker`, `ResponseCycle`,
`StandaloneEvent`). -/
inductive EventGroup where
  | phase (type : PhaseType) (timestamp : Option String) (lineNumber : Nat) :
      EventGroup
  | cycle (c : ResponseCycle) : EventGroup
  | standalone (e : ParsedLogLine) : EventGroup

/-- The mutable state of the `groupEvents` loop. -/
structure GState where
  result : List EventGroup
  currentCycle : Option ResponseCycle
  cycleEvents : List ParsedLogLine

/-- `flushCycle` of group-events.ts. -/
def flushCycle (st : GState) : GState :=
  match st.currentCycle with
  | some c =>
    { result := st.result ++
        [.cycle { c with items := aggregateDeltaEvents st.cycleEvents }]
      currentCycle := none
      cycleEvents := [] }
  | none => st

/-- Extraction of `tokenUsage` from a `response.done` payload
(`usage.input_tokens || 0` etc., guarded by `if (usage)`). -/
def usageTokenUsage (u : Json) : TokenUsage :=
  { input := jsOrElse (jsGet u "input_tokens") (.num 0)
    output := jsOrElse (jsGet u "output_tokens") (.num 0)
    total := jsOrElse (jsGet u "total_tokens") (.num 0) }

def applyDoneUsage (e : ParsedLogLine) (c : ResponseCycle) : ResponseCycle :=
  match (jsGet e.event "response").bind (fun r => jsGet r "usage") with
  | some u =>
    if jsTruthy u then { c with tokenUsage := some (usageTokenUsage u) }
    else c
  | none => c

/-- One iteration of the `groupEvents` loop. -/
def groupStep (st : GState) (e : ParsedLogLine) : GState :=
  if typeIs e PHASE_EVENTS.SPEECH_START then
    let st1 := flushCycle st
    { st1 with result := st1.result ++
        [.phase .speech e.timestamp e.lineNumber, .standalone e] }
  else if typeIs e PHASE_EVENTS.RESPONSE_START then
    let st1 := flushCycle st
    { result := st1.result ++ [.phase .response e.timestamp e.lineNumber]
      currentCycle := some
        { responseId := (jsGet e.event "response").bind (fun r => jsGet r "id")
          startEvent := e
          endEvent := none
          items := []
          tokenUsage := none }
      cycleEvents := st1.cycleEvents ++ [e] }
  else if typeIs e "response.done" || typeIs e "response.cancelled" then
    match st.currentCycle with
    | some c =>
      let c1 := { c with endEvent := some e }
      let c2 := if typeIs e "response.done" then applyDoneUsage e c1 else c1
      flushCycle { result := st.result, currentCycle := some c2,
                   cycleEvents := st.cycleEvents ++ [e] }
    | none => { st with result := st.result ++ [.standalone e] }
  else if typeIs e PHASE_EVENTS.FUNCTION_CALL then
    match st.currentCycle with
    | some _ => { st with cycleEvents := st.cycleEvents ++ [e] }
    | none =>
      { st with result := st.result ++
          [.phase .function_call e.timestamp e.lineNumber, .standalone e] }
  else
    match st.currentCycle with
    | some _ => { st with cycleEvents := st.cycleEvents ++ [e] }
    | none => { st with result := st.result ++ [.standalone e] }

/-- `groupEvents` of group-events.ts. -/
def groupEvents (events : List ParsedLogLine) : List EventGroup :=
  (flushCycle (events.foldl groupStep ⟨[], none, []⟩)).result

/-- The statistics record returned by `getDeltaGroupStats`. -/
structure DeltaGroupStats where
  count : Nat
  aggregatedText : Option String
deriving DecidableEq

/-- JS number-to-string, as used by `Array.prototype.join`.  Exact for
integral values; non-integral values (never produced by the claims, and
dependent on float64 formatting) are rendered as `num/den`. -/
def jsNumToString (q : ℚ) : String :=
  if q.den = 1 then toString q.num
  else toString q.num ++ "/" ++ toString q.den

/-- Element stringification of `Array.prototype.join`: `null`/`undefined`
become the empty string, other values their JS string conversion. -/
def jsJoinString : Json → String
  | .null => ""
  | .bool b => if b then "true" else "false"
  | .num q => jsNumToString q
  | .str s => s
  | .arr xs => String.intercalate "," (xs.attach.map fun x => jsJoinString x.1)
  | .obj _ => "[object Object]"
decreasing_by
  have h := List.sizeOf_lt_of_mem x.2
  simp only [Json.arr.sizeOf_spec]
  omega

/-- `delta || transcript || ""` on a decoded line. -/
def deltaTranscriptValue (e : ParsedLogLine) : Json :=
  jsOrElse (jsGet e.event "delta")
    (jsOrElse (jsGet e.event "transcript") (.str ""))

/-- The text accumulated by `getDeltaGroupStats` for transcript-bearing
delta groups: `events.map((e) => delta || transcript || "").join("")`. -/
def deltaGroupText (g : DeltaGroup) : String :=
  String.join (g.events.map (fun e => jsJoinString (deltaTranscriptValue e)))

/-- `getDeltaGroupStats` of group-events.ts. -/
def getDeltaGroupStats (g : DeltaGroup) : DeltaGroupStats :=
  if g.eventType == "response.audio_transcript.delta" ||
     g.eventType == "response.text.delta" ||
     g.eventType == "conversation.item.input_audio_transcription.delta" then
    { count := g.events.length, aggregatedText := some (deltaGroupText g) }
  else
    { count := g.events.length, aggregatedText := none }

-- Flattening of the grouped output back to the underlying event stream.

/-- The decoded lines covered by one cycle item. -/
def cycleItemLines : CycleItem → List ParsedLogLine
  | .line e => [e]
  | .group g => g.events

/-- The decoded lines covered by a list of cycle items, in order. -/
def itemsLines (items : List CycleItem) : List ParsedLogLine :=
  (items.map cycleItemLines).flatten

/-- The decoded lines covered by one event group: phase markers cover
nothing, standalone events themselves, cycles their items. -/
def groupLines : EventGroup → List ParsedLogLine
  | .phase _ _ _ => []
  | .cycle c => itemsLines c.items
  | .standalone e => [e]

/-- The decoded lines covered by a grouped sequence, in order. -/
def flattenGroups (gs : List EventGroup) : List ParsedLogLine :=
  (gs.map groupLines).flatten

-- ===========================================================================
-- Audio Codec (src/lib/audio-player.ts)
-- ===========================================================================

/-- ASCII whitespace as stripped by WHATWG forgiving-base64 (`atob`). -/
def isB64Ws (c : Char) : Bool :=
  c = '\t' || c = '\n' || c = '\x0c' || c = '\r' || c = ' '

/-- Value of one base64 alphabet character. -/
def b64CharVal (c : Char) : Option Nat :=
  if 'A' ≤ c && c ≤ 'Z' then some (c.toNat - 65)
  else if 'a' ≤ c && c ≤ 'z' then some (c.toNat - 97 + 26)
  else if '0' ≤ c && c ≤ '9' then some (c.toNat - 48 + 52)
  else if c = '+' then some 62
  else if c = '/' then some 63
  else none

/-- Reassemble bytes from base64 sextets: groups of four sextets give three
bytes; a trailing pair gives one byte and a trailing triple two bytes
(leftover bits discarded, as in forgiving-base64); a single leftover
sextet is an error. -/
def b64Assemble : List Nat → Option (List Nat)
  | [] => some []
  | [_] => none
  | [a, b] => some [a * 4 + b / 16]
  | [a, b, c] => some [a * 4 + b / 16, b % 16 * 16 + c / 4]
  | a :: b :: c :: d :: rest =>
    (b64Assemble rest).map
      (fun r =>
        (a * 4 + b / 16) :: (b % 16 * 16 + c / 4) :: (c % 4 * 64 + d) :: r)

/-- Strip one trailing `=` if present. -/
def stripOneEq (cs : List Char) : List Char :=
  if cs.getLast? = some '=' then cs.dropLast else cs

/-- The `atob` platform builtin: WHATWG forgiving-base64 decode.  Remove
ASCII whitespace; when the length is a multiple of four remove up to two
trailing `=`; reject a remainder of one; reject characters outside the
alphabet; reassemble the bytes. -/
def atob (s : String) : Option (List Nat) :=
  let cs := s.toList.filter (fun c => !isB64Ws c)
  let cs := if cs.length % 4 = 0 then stripOneEq (stripOneEq cs) else cs
  match cs.mapM b64CharVal with
  | none => none
  | some sextets => b64Assemble sextets

example : atob "AEAAwA==" = some [0, 64, 0, 192] := rfl
example : atob " " = some [] := rfl
example : atob "" = some [] := rfl
example : atob "A" = none := rfl
example : atob "AA" = some [0] := rfl
example : atob "!!" = none := rfl

/-- Reinterpret a byte buffer as little-endian signed 16-bit integers
(`new Int16Array(bytes.buffer)`; the odd-length case is handled by the
caller below). -/
def bytesToInt16 : List Nat → List Int
  | lo :: hi :: rest =>
    (if lo + 256 * hi < 32768 then ((lo + 256 * hi : Nat) : Int)
     else ((lo + 256 * hi : Nat) : Int) - 65536) :: bytesToInt16 rest
  | _ => []

/-- `decodeAudioDelta` of audio-player.ts: base64 → PCM16 → normalized
samples.  The sample value `s / 32768` is a dyadic rational with at most
15 fraction bits, exactly representable in the `Float32Array` the source
builds, so samples are modelled in `ℚ`.  `new Int16Array(bytes.buffer)`
throws a `RangeError` when the byte length is odd (`none` here); `atob`
throws on invalid base64 (`none`). -/
def decodeAudioDelta (base64 : String) : Option (List ℚ) :=
  match atob base64 with
  | none => none
  | some bytes =>
    if bytes.length % 2 = 0 then
      some ((bytesToInt16 bytes).map (fun s => mkRat s 32768))
    else none

example : decodeAudioDelta "AEAAwA==" =
    some [mkRat 16384 32768, mkRat (-16384) 32768] := rfl
example : decodeAudioDelta "AA" = none := rfl

/-- `combineAudioChunks` of audio-player.ts: empty input gives an empty
buffer, a single chunk is returned unchanged, otherwise the chunks are
concatenated in order. -/
def combineAudioChunks (chunks : List (List ℚ)) : List ℚ :=
  match chunks with
  | [] => []
  | [c] => c
  | cs => cs.flatten

/-- The chunk-collection loop of `extractAudioFromDeltaGroup`: keep, in
order, the decodes of events whose `delta` is a non-empty string, skipping
decode failures (caught and warned) and empty decodes
(`decoded.length > 0`). -/
def extractChunks : List ParsedLogLine → List (List ℚ)
  | [] => []
  | e :: rest =>
    match jsGet e.event "delta" with
    | some (.str s) =>
      if s.length > 0 then
        match decodeAudioDelta s with
        | some decoded =>
          if decoded.length > 0 then decoded :: extractChunks rest
          else extractChunks rest
        | none => extractChunks rest
      else extractChunks rest
    | _ => extractChunks rest

/-- `extractAudioFromDeltaGroup` of audio-player.ts. -/
def extractAudioFromDeltaGroup (events : List ParsedLogLine) :
    Option (List ℚ) :=
  let chunks := extractChunks events
  if chunks.isEmpty then none else some (combineAudioChunks chunks)

/-- Modelled from the spec (§4.4 `extractFromDeltaRun`), for comparison
with the implementation: filter events for a non-empty delta payload
string, decode each with `decode`, skip any that fail, and return
`combine` of the rest, or no data if zero chunks decoded successfully. -/
def specExtractFromDeltaRun (events : List ParsedLogLine) :
    Option (List ℚ) :=
  let chunks := events.filterMap (fun e =>
    match jsGet e.event "delta" with
    | some (.str s) => if s.length > 0 then decodeAudioDelta s else none
    | _ => none)
  if chunks.isEmpty then none else some (combineAudioChunks chunks)

/-- Little-endian two's-complement serialization of int16 samples, the
byte stream whose base64 encodings the audio claims quantify over. -/
def int16ToBytesLE (samples : List Int) : List Nat :=
  (samples.map (fun s => [(s % 65536).toNat % 256, (s % 65536).toNat / 256])).flatten

/-- Standard base64 encoder (with padding), used to state the round-trip
example. -/
def b64CharOf (n : Nat) : Char :=
  "ABCDEFGHIJKLMNOPQRSTUVWXYZabcdefghijklmnopqrstuvwxyz0123456789+/".toList.getD
    n 'A'

def b64encodeGo : List Nat → List Char
  | b1 :: b2 :: b3 :: rest =>
    b64CharOf (b1 / 4) :: b64CharOf (b1 % 4 * 16 + b2 / 16) ::
      b64CharOf (b2 % 16 * 4 + b3 / 64) :: b64CharOf (b3 % 64) ::
      b64encodeGo rest
  | [b1, b2] =>
    [b64CharOf (b1 / 4), b64CharOf (b1 % 4 * 16 + b2 / 16),
     b64CharOf (b2 % 16 * 4), '=']
  | [b1] => [b64CharOf (b1 / 4), b64CharOf (b1 % 4 * 16), '=', '=']
  | [] => []

def b64encode (bytes : List Nat) : String := String.mk (b64encodeGo bytes)

example : b64encode (int16ToBytesLE [16384, -16384]) = "AEAAwA==" := rfl

-- ===========================================================================
-- Specification-side definitions used to state the claims
-- ===========================================================================

/-- The timestamp step of the decoder: extracted token and remainder. -/
def tsStep (cs : List Char) : Option String × List Char :=
  match tsMatch cs with
  | some (t, r) => (some t, r)
  | none => (none, cs)

/-- The session-tag step of the decoder. -/
def tagStep (cs : List Char) : Option String × List Char :=
  match uuidMatch cs with
  | some (t, r) => (some t, r)
  | none => (none, cs)

/-- The source-tag step of the decoder. -/
def srcStep (cs : List Char) : Option LogSource × List Char :=
  match srcMatch cs with
  | some (s, r) => (some s, r)
  | none => (none, cs)

/-- The three extracted prefix tokens of a line together with the payload
remainder — the intermediate values of the decoder pipeline. -/
def decodeParts (line : String) :
    Option String × Option String × Option LogSource × List Char :=
  let p1 := tsStep (trimList line.toList)
  let p2 := tagStep p1.2
  let p3 := srcStep p2.2
  (p1.1, p2.1, p3.1, p3.2)

/-- The payload remainder of a line after the three prefix-extraction
steps of the decoder (the `jsonStr` handed to `JSON.parse`). -/
def decodeRemainder (line : String) : List Char := (decodeParts line).2.2.2

/-- The concatenation of all sessions' event lists, in order. -/
def flattenSessions (sessions : List Session) : List ParsedLogLine :=
  (sessions.map (·.events)).flatten

/-- Modelled from the spec (§6 input line grammar): tail of the timestamp
token after `HH:MM:SS` — nothing, `Z`, `.fff`, or `.fffZ`. -/
def specTsTail : List Char → Bool
  | [] => true
  | ['Z'] => true
  | '.' :: f1 :: f2 :: f3 :: rest =>
    f1.isDigit && f2.isDigit && f3.isDigit &&
      (rest.isEmpty || rest = ['Z'])
  | _ => false

/-- Modelled from the spec (§6): `timestamp := YYYY-MM-DDTHH:MM:SS(.fff)?Z?`. -/
def specTsValid (s : String) : Bool :=
  match s.toList with
  | y1 :: y2 :: y3 :: y4 :: '-' :: m1 :: m2 :: '-' :: d1 :: d2 :: 'T' ::
      h1 :: h2 :: ':' :: n1 :: n2 :: ':' :: s1 :: s2 :: rest =>
    [y1, y2, y3, y4, m1, m2, d1, d2, h1, h2, n1, n2, s1, s2].all Char.isDigit
      && specTsTail rest
  | _ => false

example : specTsValid "2024-01-15T10:30:00.000Z" = true := by decide
example : specTsValid "2024-01-15T10:30:00" = true := by decide
example : specTsValid "2024-1-15T10:30:00" = false := by decide

/-- Modelled from the spec (§6): `session_tag := [0-9a-f-]+`
(case-insensitive). -/
def specTagValid (s : String) : Bool :=
  !s.toList.isEmpty && s.toList.all isTagChar

/-- Modelled from the spec (§6): the source token is `OPENAI` or `USER`,
case-insensitive. -/
def specSrcValid (s : String) : Bool :=
  match s.toList with
  | [c1, c2, c3, c4, c5, c6] =>
    isCh c1 'O' 'o' && isCh c2 'P' 'p' && isCh c3 'E' 'e' &&
      isCh c4 'N' 'n' && isCh c5 'A' 'a' && isCh c6 'I' 'i'
  | [c1, c2, c3, c4] =>
    isCh c1 'U' 'u' && isCh c2 'S' 's' && isCh c3 'E' 'e' && isCh c4 'R' 'r'
  | _ => false

/-- The normalized source of a valid source token (six letters is
`OPENAI`, four is `USER`). -/
def srcOf (s : String) : LogSource :=
  match s.toList with
  | [_, _, _, _, _, _] => .openai
  | _ => .user

/-- Whitespace-run side condition of the grammar: a present token is
followed by a non-empty whitespace run, an absent one by nothing. -/
def presentWs (tok : Option String) (w : List Char) : Bool :=
  match tok with
  | some _ => !w.isEmpty && w.all isWsChar
  | none => w.isEmpty

/-- Assemble a grammar-derived line from its components. -/
def specLineBuild (ots otag osrc : Option String) (payload : String)
    (w1 w2 w3 : List Char) : List Char :=
  (match ots with
   | some t => t.toList ++ w1
   | none => []) ++
  (match otag with
   | some t => '[' :: (t.toList ++ (']' :: w2))
   | none => []) ++
  (match osrc with
   | some t => '[' :: (t.toList ++ (']' :: w3))
   | none => []) ++
  payload.toList

/-- Modelled from the spec (§6): `line := [timestamp] [ "[" session_tag
"]" ] [ "[" ("OPENAI"|"USER") "]" ] json_payload`, whitespace between
tokens, payload a JSON document with no surrounding whitespace. -/
def SpecLineGrammar (line : String) (ots otag osrc : Option String)
    (payload : String) : Prop :=
  ∃ w1 w2 w3 : List Char,
    line.toList = specLineBuild ots otag osrc payload w1 w2 w3 ∧
    presentWs ots w1 = true ∧
    presentWs otag w2 = true ∧
    presentWs osrc w3 = true ∧
    (∀ t, ots = some t → specTsValid t = true) ∧
    (∀ t, otag = some t → specTagValid t = true) ∧
    (∀ t, osrc = some t → specSrcValid t = true) ∧
    trimList payload.toList = payload.toList ∧
    (jsonParse payload).isSome = true

/-- The chunks the extraction loop keeps: per event with a non-empty
string `delta`, a successful decode that yielded at least one sample. -/
def nonEmptyDecodedChunks (events : List ParsedLogLine) : List (List ℚ) :=
  events.filterMap (fun e =>
    match jsGet e.event "delta" with
    | some (.str s) =>
      if s.length > 0 then
        match decodeAudioDelta s with
        | some d => if d.length > 0 then some d else none
        | none => none
      else none
    | _ => none)

-- Concrete fixtures for the claims' examples and witnesses.

/-- A response-start event with a response id. -/
def evStart : ParsedLogLine :=
  ⟨some "t1", none, none,
   .obj [("type", .str "response.created"), ("event_id", .str "e1"),
         ("response", .obj [("id", .str "resp-1")])], "raw1", 1⟩

/-- Three arbitrary mid-cycle events. -/
def evMid1 : ParsedLogLine :=
  ⟨none, none, none,
   .obj [("type", .str "response.output_item.added"), ("event_id", .str "e2")],
   "raw2", 2⟩

def evMid2 : ParsedLogLine :=
  ⟨none, none, none,
   .obj [("type", .str "conversation.item.created"), ("event_id", .str "e3")],
   "raw3", 3⟩

def evMid3 : ParsedLogLine :=
  ⟨none, none, none,
   .obj [("type", .str "rate_limits.updated"), ("event_id", .str "e4")],
   "raw4", 4⟩

/-- A response-done event carrying `usage {10, 20, 30}`. -/
def evDone : ParsedLogLine :=
  ⟨none, none, none,
   .obj [("type", .str "response.done"), ("event_id", .str "e5"),
         ("response", .obj
           [("usage", .obj
             [("input_tokens", .num 10), ("output_tokens", .num 20),
              ("total_tokens", .num 30)])])], "raw5", 5⟩

/-- A speech-stopped event (C10). -/
def evSpeechStop : ParsedLogLine :=
  ⟨some "t9", none, none,
   .obj [("type", .str "input_audio_buffer.speech_stopped"),
         ("event_id", .str "e9")], "raw9", 9⟩

/-- Five consecutive text-delta events and the closing done event (C3). -/
def evTextDelta (n : Nat) (s : String) : ParsedLogLine :=
  ⟨none, none, none,
   .obj [("type", .str "response.text.delta"), ("event_id", .str "d"),
         ("delta", .str s)], "rawd", n⟩

def evTextDone : ParsedLogLine :=
  ⟨none, none, none,
   .obj [("type", .str "response.text.done"), ("event_id", .str "dd"),
         ("text", .str "Hello world")], "rawdd", 16⟩

/-- An audio-delta event whose delta payload is a whitespace-only string:
`atob` strips ASCII whitespace, so the chunk decodes successfully to zero
samples (C8). -/
def evWsDelta : ParsedLogLine :=
  ⟨none, none, none,
   .obj [("type", .str "response.audio.delta"), ("event_id", .str "w"),
         ("delta", .str " ")], "raww", 21⟩

/-- An audio-delta event with two PCM16 samples. -/
def evAudioDelta : ParsedLogLine :=
  ⟨none, none, none,
   .obj [("type", .str "response.audio.delta"), ("event_id", .str "a"),
         ("delta", .str "AEAAwA==")], "rawa", 22⟩

/-- Example content whose first line precedes any start marker (implicit
session), with a start marker on line 2. -/
def segContent2 : String :=
  "\x7b\"type\":\"error\",\"event_id\":\"x\"\x7d\n" ++
  "\x7b\"type\":\"session.created\",\"event_id\":\"y\",\"session\":\x7b\"id\":\"s9\"\x7d\x7d"

/-- The well-formedness invariant of a `DeltaGroup` (claim C4): non-empty,
homogeneous in `event.type`, and bounded by the first and last members'
line numbers. -/
def groupWellFormed (g : DeltaGroup) : Prop :=
  g.events ≠ [] ∧
  (∀ e ∈ g.events, jsGet e.event "type" = some (.str g.eventType)) ∧
  g.events.head?.map (·.lineNumber) = some g.firstLineNumber ∧
  g.events.getLast?.map (·.lineNumber) = some g.lastLineNumber

-- ===========================================================================
-- Helper lemmas
-- ===========================================================================

theorem itemsLines_append (a b : List CycleItem) :
    itemsLines (a ++ b) = itemsLines a ++ itemsLines b := by
  simp [itemsLines]

theorem flattenGroups_append (a b : List EventGroup) :
    flattenGroups (a ++ b) = flattenGroups a ++ flattenGroups b := by
  simp [flattenGroups]

theorem isDeltaLine_iff (e : ParsedLogLine) :
    isDeltaLine e = true ↔ ∃ t, jsGet e.event "type" = some (.str t) ∧
      DELTA_EVENT_TYPES.contains t = true := by
  unfold isDeltaLine
  rcases jsGet e.event "type" with _ | j
  · simp
  · cases j <;> simp

theorem aggStep_not_delta (e : ParsedLogLine) (result : List CycleItem)
    (cur : Option DeltaGroup) (h : isDeltaLine e = false) :
    aggStep (result, cur) e = (aggFinish (result, cur) ++ [.line e], none) := by
  unfold isDeltaLine at h
  rcases htype : jsGet e.event "type" with _ | j
  · rw [htype] at h
    cases cur <;> simp [aggStep, htype, aggFinish]
  · rw [htype] at h
    cases j <;> cases cur <;> simp_all [aggStep, htype, aggFinish]

theorem aggStep_delta_merge (e : ParsedLogLine) (result : List CycleItem)
    (g : DeltaGroup) (t : String)
    (htype : jsGet e.event "type" = some (.str t))
    (hc : DELTA_EVENT_TYPES.contains t = true) (hbe : g.eventType = t) :
    aggStep (result, some g) e =
      (result,
       some { g with
              events := g.events ++ [e]
              lastLineNumber := e.lineNumber }) := by
  have hc' : t ∈ DELTA_EVENT_TYPES := by simpa using hc
  simp [aggStep, htype, hc', hbe]

theorem aggStep_delta_new (e : ParsedLogLine) (result : List CycleItem)
    (cur : Option DeltaGroup) (t : String)
    (htype : jsGet e.event "type" = some (.str t))
    (hc : DELTA_EVENT_TYPES.contains t = true)
    (hne : ∀ g, cur = some g → g.eventType ≠ t) :
    aggStep (result, cur) e =
      (aggFinish (result, cur), some ⟨t, [e], e.lineNumber, e.lineNumber⟩) := by
  have hc' : t ∈ DELTA_EVENT_TYPES := by simpa using hc
  rcases cur with _ | g
  · simp [aggStep, htype, hc', aggFinish]
  · have := hne g rfl
    simp [aggStep, htype, hc', aggFinish, this]

theorem aggFold_flatten (l : List ParsedLogLine) :
    ∀ (result : List CycleItem) (cur : Option DeltaGroup),
      itemsLines (aggFinish (l.foldl aggStep (result, cur))) =
        itemsLines result ++ optGroupEvents cur ++ l := by
  induction l with
  | nil =>
    intro result cur
    cases cur <;>
      simp [aggFinish, optGroupEvents, itemsLines_append, itemsLines,
        cycleItemLines]
  | cons e rest ih =>
    intro result cur
    rw [List.foldl_cons]
    by_cases hd : isDeltaLine e
    · obtain ⟨t, htype, hc⟩ := (isDeltaLine_iff e).mp hd
      rcases cur with _ | g
      · rw [aggStep_delta_new e result none t htype hc (by simp)]
        rw [ih]
        simp [aggFinish, optGroupEvents, itemsLines_append, itemsLines,
          cycleItemLines]
      · by_cases hbe : g.eventType = t
        · rw [aggStep_delta_merge e result g t htype hc hbe]
          rw [ih]
          simp [optGroupEvents]
        · rw [aggStep_delta_new e result (some g) t htype hc
            (by intro g' hg'; cases hg'; exact hbe)]
          rw [ih]
          simp [aggFinish, optGroupEvents, itemsLines_append, itemsLines,
            cycleItemLines]
    · rw [aggStep_not_delta e result cur (by simpa using hd)]
      rw [ih]
      rcases cur with _ | g <;>
        simp [aggFinish, optGroupEvents, itemsLines_append, itemsLines,
          cycleItemLines]

theorem aggregateDeltaEvents_flatten (l : List ParsedLogLine) :
    itemsLines (aggregateDeltaEvents l) = l := by
  have h := aggFold_flatten l [] none
  simpa [aggregateDeltaEvents, itemsLines, optGroupEvents] using h

theorem flushCycle_some (st : GState) (c : ResponseCycle)
    (h : st.currentCycle = some c) :
    flushCycle st = ⟨st.result ++
      [.cycle { c with items := aggregateDeltaEvents st.cycleEvents }],
      none, []⟩ := by
  simp [flushCycle, h]

theorem flushCycle_none (st : GState) (h : st.currentCycle = none) :
    flushCycle st = st := by
  simp [flushCycle, h]

theorem flushCycle_flatten (st : GState)
    (hinv : st.currentCycle = none → st.cycleEvents = []) :
    flattenGroups (flushCycle st).result =
        flattenGroups st.result ++ st.cycleEvents ∧
      (flushCycle st).currentCycle = none ∧ (flushCycle st).cycleEvents = [] := by
  rcases h : st.currentCycle with _ | c
  · rw [flushCycle_none st h]
    simp [hinv h, h]
  · rw [flushCycle_some st c h]
    simp [flattenGroups_append, flattenGroups, groupLines,
      aggregateDeltaEvents_flatten]

-- Evaluation lemmas for the branches of `groupStep`.

theorem typeIs_eq_true_iff (e : ParsedLogLine) (s : String) :
    typeIs e s = true ↔ jsGet e.event "type" = some (.str s) := by
  unfold typeIs
  rcases jsGet e.event "type" with _ | j
  · simp
  · cases j <;> simp

theorem typeIs_unique (e : ParsedLogLine) (s s' : String)
    (h : typeIs e s = true) (hne : s ≠ s') : typeIs e s' = false := by
  have h' := (typeIs_eq_true_iff e s).mp h
  by_cases hb : typeIs e s' = true
  · have hb' := (typeIs_eq_true_iff e s').mp hb
    have : Json.str s = Json.str s' := Option.some.inj (h'.symm.trans hb')
    cases this
    exact absurd rfl hne
  · exact Bool.of_not_eq_true hb

theorem groupStep_speech_start (st : GState) (e : ParsedLogLine)
    (h : typeIs e PHASE_EVENTS.SPEECH_START = true) :
    groupStep st e = { flushCycle st with
      result := (flushCycle st).result ++
        [.phase .speech e.timestamp e.lineNumber, .standalone e] } := by
  simp [groupStep, h]

theorem groupStep_response_start (st : GState) (e : ParsedLogLine)
    (h : typeIs e PHASE_EVENTS.RESPONSE_START = true) :
    groupStep st e =
      ⟨(flushCycle st).result ++ [.phase .response e.timestamp e.lineNumber],
       some ⟨(jsGet e.event "response").bind (fun r => jsGet r "id"), e, none,
             [], none⟩,
       (flushCycle st).cycleEvents ++ [e]⟩ := by
  have h1 : typeIs e PHASE_EVENTS.SPEECH_START = false :=
    typeIs_unique e _ _ h (by decide)
  simp [groupStep, h, h1]

theorem closer_not_marker (e : ParsedLogLine)
    (h : (typeIs e "response.done" || typeIs e "response.cancelled") = true) :
    typeIs e PHASE_EVENTS.SPEECH_START = false ∧
      typeIs e PHASE_EVENTS.RESPONSE_START = false := by
  rcases Bool.or_eq_true_iff.mp h with hd | hc
  · exact ⟨typeIs_unique e _ _ hd (by decide), typeIs_unique e _ _ hd (by decide)⟩
  · exact ⟨typeIs_unique e _ _ hc (by decide), typeIs_unique e _ _ hc (by decide)⟩

theorem groupStep_close_open (st : GState) (c : ResponseCycle)
    (e : ParsedLogLine) (hcur : st.currentCycle = some c)
    (h : (typeIs e "response.done" || typeIs e "response.cancelled") = true) :
    groupStep st e =
      ⟨st.result ++ [.cycle
        { (if typeIs e "response.done" then
             applyDoneUsage e { c with endEvent := some e }
           else { c with endEvent := some e }) with
          items := aggregateDeltaEvents (st.cycleEvents ++ [e]) }],
       none, []⟩ := by
  obtain ⟨h1, h2⟩ := closer_not_marker e h
  unfold groupStep
  rw [h1, h2, hcur]
  simp [h, flushCycle]

theorem groupStep_close_orphan (st : GState) (e : ParsedLogLine)
    (hcur : st.currentCycle = none)
    (h : (typeIs e "response.done" || typeIs e "response.cancelled") = true) :
    groupStep st e = { st with result := st.result ++ [.standalone e] } := by
  obtain ⟨h1, h2⟩ := closer_not_marker e h
  unfold groupStep
  rw [h1, h2, hcur]
  simp [h]

theorem groupStep_buffered (st : GState) (c : ResponseCycle)
    (e : ParsedLogLine) (hcur : st.currentCycle = some c)
    (h1 : typeIs e PHASE_EVENTS.SPEECH_START = false)
    (h2 : typeIs e PHASE_EVENTS.RESPONSE_START = false)
    (h3 : typeIs e "response.done" = false)
    (h4 : typeIs e "response.cancelled" = false) :
    groupStep st e = { st with cycleEvents := st.cycleEvents ++ [e] } := by
  unfold groupStep
  rw [h1, h2, h3, h4, hcur]
  by_cases h5 : typeIs e PHASE_EVENTS.FUNCTION_CALL = true
  · simp [h5]
  · simp [Bool.of_not_eq_true h5]

theorem groupStep_fc_closed (st : GState) (e : ParsedLogLine)
    (hcur : st.currentCycle = none)
    (h1 : typeIs e PHASE_EVENTS.SPEECH_START = false)
    (h2 : typeIs e PHASE_EVENTS.RESPONSE_START = false)
    (h3 : typeIs e "response.done" = false)
    (h4 : typeIs e "response.cancelled" = false)
    (h5 : typeIs e PHASE_EVENTS.FUNCTION_CALL = true) :
    groupStep st e = { st with result := st.result ++
      [.phase .function_call e.timestamp e.lineNumber, .standalone e] } := by
  unfold groupStep
  rw [h1, h2, h3, h4, hcur]
  simp [h5]

theorem groupStep_plain_closed (st : GState) (e : ParsedLogLine)
    (hcur : st.currentCycle = none)
    (h1 : typeIs e PHASE_EVENTS.SPEECH_START = false)
    (h2 : typeIs e PHASE_EVENTS.RESPONSE_START = false)
    (h3 : typeIs e "response.done" = false)
    (h4 : typeIs e "response.cancelled" = false)
    (h5 : typeIs e PHASE_EVENTS.FUNCTION_CALL = false) :
    groupStep st e = { st with result := st.result ++ [.standalone e] } := by
  unfold groupStep
  rw [h1, h2, h3, h4, h5, hcur]
  simp

-- ===========================================================================
-- C1
-- ===========================================================================

theorem groupStep_flatten (st : GState) (e : ParsedLogLine)
    (hinv : st.currentCycle = none → st.cycleEvents = []) :
    flattenGroups (groupStep st e).result ++ (groupStep st e).cycleEvents =
        flattenGroups st.result ++ st.cycleEvents ++ [e] ∧
      ((groupStep st e).currentCycle = none →
        (groupStep st e).cycleEvents = []) := by
  obtain ⟨hfl, hcyc, hev⟩ := flushCycle_flatten st hinv
  by_cases h1 : typeIs e PHASE_EVENTS.SPEECH_START = true
  · rw [groupStep_speech_start st e h1]
    refine ⟨?_, fun _ => hev⟩
    rw [flattenGroups_append, hfl, hev]
    simp [flattenGroups, groupLines]
  · replace h1 := Bool.of_not_eq_true h1
    by_cases h2 : typeIs e PHASE_EVENTS.RESPONSE_START = true
    · rw [groupStep_response_start st e h2]
      refine ⟨?_, by simp⟩
      rw [flattenGroups_append, hfl, hev]
      simp [flattenGroups, groupLines]
    · replace h2 := Bool.of_not_eq_true h2
      by_cases h3 : (typeIs e "response.done" ||
          typeIs e "response.cancelled") = true
      · rcases hcur : st.currentCycle with _ | c
        · rw [groupStep_close_orphan st e hcur h3]
          refine ⟨?_, fun _ => hinv hcur⟩
          rw [flattenGroups_append]
          simp [flattenGroups, groupLines, hinv hcur]
        · rw [groupStep_close_open st c e hcur h3]
          refine ⟨?_, fun _ => rfl⟩
          rw [flattenGroups_append]
          simp [flattenGroups, groupLines, aggregateDeltaEvents_flatten]
      · have h3d : typeIs e "response.done" = false := by
          rcases hb : typeIs e "response.done" with _ | _
          · rfl
          · exact absurd (by simp [hb]) h3
        have h3c : typeIs e "response.cancelled" = false := by
          rcases hb : typeIs e "response.cancelled" with _ | _
          · rfl
          · exact absurd (by simp [hb]) h3
        rcases hcur : st.currentCycle with _ | c
        · by_cases h5 : typeIs e PHASE_EVENTS.FUNCTION_CALL = true
          · rw [groupStep_fc_closed st e hcur h1 h2 h3d h3c h5]
            refine ⟨?_, fun _ => hinv hcur⟩
            rw [flattenGroups_append]
            simp [flattenGroups, groupLines, hinv hcur]
          · rw [groupStep_plain_closed st e hcur h1 h2 h3d h3c
              (Bool.of_not_eq_true h5)]
            refine ⟨?_, fun _ => hinv hcur⟩
            rw [flattenGroups_append]
            simp [flattenGroups, groupLines, hinv hcur]
        · rw [groupStep_buffered st c e hcur h1 h2 h3d h3c]
          refine ⟨by simp, ?_⟩
          intro h
          simp [hcur] at h

theorem groupFold_flatten (l : List ParsedLogLine) :
    ∀ st : GState, (st.currentCycle = none → st.cycleEvents = []) →
      flattenGroups (flushCycle (l.foldl groupStep st)).result =
        flattenGroups st.result ++ st.cycleEvents ++ l := by
  induction l with
  | nil =>
    intro st hinv
    rw [List.foldl_nil, (flushCycle_flatten st hinv).1]
    simp
  | cons e rest ih =>
    intro st hinv
    rw [List.foldl_cons]
    obtain ⟨hacc, hinv'⟩ := groupStep_flatten st e hinv
    rw [ih _ hinv']
    calc flattenGroups (groupStep st e).result ++
          (groupStep st e).cycleEvents ++ rest
        = (flattenGroups (groupStep st e).result ++
            (groupStep st e).cycleEvents) ++ rest := by rw [List.append_assoc]
      _ = (flattenGroups st.result ++ st.cycleEvents ++ [e]) ++ rest := by
          rw [hacc]
      _ = flattenGroups st.result ++ st.cycleEvents ++ (e :: rest) := by simp

/-- C1: `groupEvents` covers every input event exactly once — flattening
its output in order (a `StandaloneEvent` contributing its event, a
`ResponseCycle` the events of its items with `DeltaGroup` members
expanded, a `PhaseMarker` nothing) yields exactly the input sequence. -/
theorem groupEvents_covers_input (events : List ParsedLogLine) :
    flattenGroups (groupEvents events) = events := by
  have h := groupFold_flatten events ⟨[], none, []⟩ (fun _ => rfl)
  simpa [groupEvents, flattenGroups] using h

-- ===========================================================================
-- C3
-- ===========================================================================

theorem aggFinish_append (a b : List CycleItem) (c : Option DeltaGroup) :
    aggFinish (a ++ b, c) = a ++ aggFinish (b, c) := by
  cases c <;> simp [aggFinish]

theorem aggFinish_fst_snd (A : List CycleItem)
    (st : List CycleItem × Option DeltaGroup) :
    aggFinish (A ++ st.1, st.2) = A ++ aggFinish st := by
  rcases st with ⟨r, c⟩
  cases c <;> simp [aggFinish]

theorem aggStep_result_append (R : List CycleItem) (cur : Option DeltaGroup)
    (e : ParsedLogLine) :
    aggStep (R, cur) e = (R ++ (aggStep ([], cur) e).1, (aggStep ([], cur) e).2) := by
  by_cases hd : isDeltaLine e = true
  · obtain ⟨t, htype, hc⟩ := (isDeltaLine_iff e).mp hd
    rcases cur with _ | g
    · rw [aggStep_delta_new e R none t htype hc (by simp),
        aggStep_delta_new e [] none t htype hc (by simp)]
      simp [aggFinish]
    · by_cases hbe : g.eventType = t
      · rw [aggStep_delta_merge e R g t htype hc hbe,
          aggStep_delta_merge e [] g t htype hc hbe]
        simp
      · rw [aggStep_delta_new e R (some g) t htype hc
            (fun g' hg' => by cases hg'; exact hbe),
          aggStep_delta_new e [] (some g) t htype hc
            (fun g' hg' => by cases hg'; exact hbe)]
        simp [aggFinish]
  · rw [aggStep_not_delta e R cur (by simpa using hd),
      aggStep_not_delta e [] cur (by simpa using hd)]
    cases cur <;> simp [aggFinish]

theorem aggFold_result_append (l : List ParsedLogLine) :
    ∀ (R : List CycleItem) (cur : Option DeltaGroup),
      l.foldl aggStep (R, cur) =
        (R ++ (l.foldl aggStep ([], cur)).1, (l.foldl aggStep ([], cur)).2) := by
  induction l with
  | nil => intro R cur; simp
  | cons e rest ih =>
    intro R cur
    rw [List.foldl_cons, List.foldl_cons, aggStep_result_append]
    rcases h : aggStep ([], cur) e with ⟨r1, c1⟩
    rw [ih (R ++ r1) c1, ih r1 c1]
    simp

theorem aggFold_last_type (pre : List ParsedLogLine)
    (st : List CycleItem × Option DeltaGroup) (g : DeltaGroup)
    (h : (pre.foldl aggStep st).2 = some g) :
    (∃ p, pre.getLast? = some p ∧
        jsGet p.event "type" = some (.str g.eventType)) ∨
      (pre = [] ∧ st.2 = some g) := by
  induction pre using List.reverseRecOn with
  | nil =>
    right
    exact ⟨rfl, by simpa using h⟩
  | append_singleton l p ihl =>
    rw [List.foldl_append, List.foldl_cons, List.foldl_nil] at h
    left
    rcases hs : l.foldl aggStep st with ⟨r0, c0⟩
    rw [hs] at h
    by_cases hd : isDeltaLine p = true
    · obtain ⟨t, htype, hc⟩ := (isDeltaLine_iff p).mp hd
      rcases c0 with _ | g0
      · rw [aggStep_delta_new p r0 none t htype hc (by simp)] at h
        simp only at h
        cases h
        exact ⟨p, List.getLast?_concat _, htype⟩
      · by_cases hbe : g0.eventType = t
        · rw [aggStep_delta_merge p r0 g0 t htype hc hbe] at h
          simp only at h
          cases h
          exact ⟨p, List.getLast?_concat _, by rw [hbe]; exact htype⟩
        · rw [aggStep_delta_new p r0 (some g0) t htype hc
            (fun g' hg' => by cases hg'; exact hbe)] at h
          simp only at h
          cases h
          exact ⟨p, List.getLast?_concat _, htype⟩
    · rw [aggStep_not_delta p r0 c0 (by simpa using hd)] at h
      simp at h

theorem getDeltaGroupStats_count (g : DeltaGroup) :
    (getDeltaGroupStats g).count = g.events.length := by
  unfold getDeltaGroupStats
  split_ifs <;> rfl

theorem getDeltaGroupStats_text (g : DeltaGroup)
    (h : g.eventType = "response.audio_transcript.delta" ∨
      g.eventType = "response.text.delta" ∨
      g.eventType = "conversation.item.input_audio_transcription.delta") :
    getDeltaGroupStats g = ⟨g.events.length, some (deltaGroupText g)⟩ := by
  rcases h with h | h | h <;> simp [getDeltaGroupStats, h]

theorem jsJoinString_str (s : String) : jsJoinString (.str s) = s := by
  simp [jsJoinString]

/-- C3: a run of five consecutive `response.text.delta` events immediately
followed by a `response.text.done` (the run not extendable on the left)
aggregates to one `DeltaGroup` holding exactly those five events, followed
outside the group by the done event standalone; the group's stats count is
5; for the transcript/text-bearing delta types the aggregated text is the
concatenation, in member order, of each member's delta-or-transcript text
field, an absent field contributing the empty string. -/
theorem aggregateDeltaEvents_five_text_deltas :
    (∀ (pre post : List ParsedLogLine) (d1 d2 d3 d4 d5 dn : ParsedLogLine),
      jsGet d1.event "type" = some (.str "response.text.delta") →
      jsGet d2.event "type" = some (.str "response.text.delta") →
      jsGet d3.event "type" = some (.str "response.text.delta") →
      jsGet d4.event "type" = some (.str "response.text.delta") →
      jsGet d5.event "type" = some (.str "response.text.delta") →
      jsGet dn.event "type" = some (.str "response.text.done") →
      (∀ p, pre.getLast? = some p →
        jsGet p.event "type" ≠ some (.str "response.text.delta")) →
      aggregateDeltaEvents (pre ++ [d1, d2, d3, d4, d5, dn] ++ post) =
        aggregateDeltaEvents pre ++
          [.group ⟨"response.text.delta", [d1, d2, d3, d4, d5],
             d1.lineNumber, d5.lineNumber⟩, .line dn] ++
          aggregateDeltaEvents post ∧
      (getDeltaGroupStats ⟨"response.text.delta", [d1, d2, d3, d4, d5],
        d1.lineNumber, d5.lineNumber⟩).count = 5) ∧
    (∀ g : DeltaGroup,
      (g.eventType = "response.audio_transcript.delta" ∨
       g.eventType = "response.text.delta" ∨
       g.eventType = "conversation.item.input_audio_transcription.delta") →
      getDeltaGroupStats g = ⟨g.events.length, some (deltaGroupText g)⟩) ∧
    (∀ (e : ParsedLogLine) (s : String),
      jsGet e.event "delta" = some (.str s) → s ≠ "" →
      jsJoinString (deltaTranscriptValue e) = s) ∧
    (∀ e : ParsedLogLine,
      jsGet e.event "delta" = none → jsGet e.event "transcript" = none →
      jsJoinString (deltaTranscriptValue e) = "") ∧
    getDeltaGroupStats ⟨"response.text.delta",
      [evTextDelta 11 "Hel", evTextDelta 12 "lo", evTextDelta 13 " wo",
       evTextDelta 14 "rl", evTextDelta 15 "d"], 11, 15⟩ =
      ⟨5, some "Hello world"⟩ := by
  refine ⟨?_, ?_, ?_, ?_, ?_⟩
  · intro pre post d1 d2 d3 d4 d5 dn h1 h2 h3 h4 h5 hn hpre
    have hmemT : DELTA_EVENT_TYPES.contains "response.text.delta" = true := by
      decide
    have hdn : isDeltaLine dn = false := by
      unfold isDeltaLine
      rw [hn]
      decide
    refine ⟨?_, by rw [getDeltaGroupStats_count]; rfl⟩
    unfold aggregateDeltaEvents
    rw [List.foldl_append, List.foldl_append]
    rcases h0 : pre.foldl aggStep ([], none) with ⟨r0, c0⟩
    have hc0 : ∀ g, c0 = some g → g.eventType ≠ "response.text.delta" := by
      intro g hg heq
      rcases aggFold_last_type pre ([], none) g (by rw [h0]; exact hg) with
        ⟨p, hlast, hty⟩ | ⟨_, hsnd⟩
      · exact hpre p hlast (heq ▸ hty)
      · exact Option.noConfusion hsnd
    have hmid : List.foldl aggStep (r0, c0) [d1, d2, d3, d4, d5, dn] =
        (aggFinish (r0, c0) ++
          [.group ⟨"response.text.delta", [d1, d2, d3, d4, d5],
            d1.lineNumber, d5.lineNumber⟩, .line dn], none) := by
      simp only [List.foldl_cons, List.foldl_nil]
      rw [aggStep_delta_new d1 r0 c0 _ h1 hmemT hc0]
      rw [aggStep_delta_merge d2 _ _ _ h2 hmemT rfl]
      rw [aggStep_delta_merge d3 _ _ _ h3 hmemT rfl]
      rw [aggStep_delta_merge d4 _ _ _ h4 hmemT rfl]
      rw [aggStep_delta_merge d5 _ _ _ h5 hmemT rfl]
      rw [aggStep_not_delta dn _ _ hdn]
      simp [aggFinish]
    rw [hmid, aggFold_result_append]
    exact aggFinish_fst_snd _ _
  · intro g hg
    rcases hg with h | h | h <;>
      simp [getDeltaGroupStats, h, deltaGroupText]
  · intro e s hdelta hne
    simp [deltaTranscriptValue, jsOrElse, hdelta, jsTruthy, hne, jsJoinString]
  · intro e hdelta htr
    simp [deltaTranscriptValue, jsOrElse, hdelta, htr, jsJoinString]
  · rw [getDeltaGroupStats_text _ (Or.inr (Or.inl rfl))]
    have hv : ∀ (n : Nat) (s : String), s ≠ "" →
        deltaTranscriptValue (evTextDelta n s) = .str s := by
      intro n s hs
      simp [deltaTranscriptValue, evTextDelta, jsGet, jsOrElse, jsTruthy, hs]
    simp only [deltaGroupText, List.map_cons, List.map_nil,
      hv 11 "Hel" (by decide), hv 12 "lo" (by decide),
      hv 13 " wo" (by decide), hv 14 "rl" (by decide),
      hv 15 "d" (by decide), jsJoinString_str]
    rfl

theorem aggregateDeltaEvents_five_text_deltas_witness :
    aggregateDeltaEvents ([] ++
        [evTextDelta 11 "Hel", evTextDelta 12 "lo", evTextDelta 13 " wo",
         evTextDelta 14 "rl", evTextDelta 15 "d", evTextDone] ++ []) =
      aggregateDeltaEvents [] ++
        [.group ⟨"response.text.delta",
          [evTextDelta 11 "Hel", evTextDelta 12 "lo", evTextDelta 13 " wo",
           evTextDelta 14 "rl", evTextDelta 15 "d"], 11, 15⟩,
         .line evTextDone] ++
        aggregateDeltaEvents [] :=
  (aggregateDeltaEvents_five_text_deltas.1 [] []
    (evTextDelta 11 "Hel") (evTextDelta 12 "lo") (evTextDelta 13 " wo")
    (evTextDelta 14 "rl") (evTextDelta 15 "d") evTextDone
    rfl rfl rfl rfl rfl rfl (by intro p hp _; cases hp)).1

-- ===========================================================================
-- C2
-- ===========================================================================

/-- C2: a `response.done` arriving while a cycle is open closes the cycle —
`end_event` is set to that line, token usage is extracted by
`applyDoneUsage`, the buffered events (including the marker) are
delta-aggregated into `items` and the completed cycle is emitted;
`usageTokenUsage` reads `input_tokens`/`output_tokens`/`total_tokens` with
missing sub-fields defaulting to 0, and is applied whenever the payload's
nested usage object is present; with no open cycle the marker becomes a
`StandaloneEvent`.  The concrete five-event lifecycle produces one cycle
with `token_usage = {10, 20, 30}`. -/
theorem groupEvents_response_done :
    (∀ (st : GState) (c : ResponseCycle) (e : ParsedLogLine),
      st.currentCycle = some c → typeIs e "response.done" = true →
      groupStep st e =
        ⟨st.result ++ [.cycle
          { applyDoneUsage e { c with endEvent := some e } with
            items := aggregateDeltaEvents (st.cycleEvents ++ [e]) }],
         none, []⟩) ∧
    (∀ (u : Json) (i o t : ℚ),
      jsGet u "input_tokens" = some (.num i) →
      jsGet u "output_tokens" = some (.num o) →
      jsGet u "total_tokens" = some (.num t) →
      usageTokenUsage u = ⟨.num i, .num o, .num t⟩) ∧
    (∀ (e : ParsedLogLine) (c : ResponseCycle) (us : List (String × Json)),
      (jsGet e.event "response").bind (fun r => jsGet r "usage") =
        some (.obj us) →
      applyDoneUsage e c =
        { c with tokenUsage := some (usageTokenUsage (.obj us)) }) ∧
    (∀ u : Json,
      jsGet u "input_tokens" = none → (usageTokenUsage u).input = .num 0) ∧
    (∀ (st : GState) (e : ParsedLogLine),
      st.currentCycle = none → typeIs e "response.done" = true →
      groupStep st e = { st with result := st.result ++ [.standalone e] }) ∧
    groupEvents [evStart, evMid1, evMid2, evMid3, evDone] =
      [.phase .response (some "t1") 1,
       .cycle ⟨some (.str "resp-1"), evStart, some evDone,
         [.line evStart, .line evMid1, .line evMid2, .line evMid3,
          .line evDone],
         some ⟨.num 10, .num 20, .num 30⟩⟩] ∧
    groupEvents [evDone] = [.standalone evDone] := by
  refine ⟨?_, ?_, ?_, ?_, ?_, rfl, rfl⟩
  · intro st c e hcur hdone
    rw [groupStep_close_open st c e hcur (by simp [hdone])]
    rw [if_pos hdone]
  · intro u i o t hin hout htot
    have hfield : ∀ q : ℚ, jsOrElse (some (.num q)) (.num 0) = .num q := by
      intro q
      by_cases hq : q = 0 <;> simp [jsOrElse, jsTruthy, hq]
    unfold usageTokenUsage
    rw [hin, hout, htot, hfield, hfield, hfield]
  · intro e c us husage
    unfold applyDoneUsage
    rw [husage]
    simp [jsTruthy]
  · intro u h
    simp [usageTokenUsage, h, jsOrElse]
  · intro st e hcur hdone
    exact groupStep_close_orphan st e hcur (by simp [hdone])

theorem groupEvents_response_done_witness :
    groupStep ⟨[], some ⟨none, evStart, none, [], none⟩, [evStart]⟩ evDone =
      ⟨[] ++ [.cycle
        { applyDoneUsage evDone
            { (⟨none, evStart, none, [], none⟩ : ResponseCycle) with
              endEvent := some evDone } with
          items := aggregateDeltaEvents ([evStart] ++ [evDone]) }],
       none, []⟩ ∧
    groupStep ⟨[], none, []⟩ evDone =
      ⟨[] ++ [.standalone evDone], none, []⟩ :=
  ⟨groupEvents_response_done.1 ⟨[], some ⟨none, evStart, none, [], none⟩,
      [evStart]⟩ ⟨none, evStart, none, [], none⟩ evDone rfl rfl,
   groupEvents_response_done.2.2.2.2.1 ⟨[], none, []⟩ evDone rfl rfl⟩

-- ===========================================================================
-- C10
-- ===========================================================================

/-- C10: `input_audio_buffer.speech_stopped` is declared among the
`PHASE_EVENTS` markers, yet `groupEvents` gives it no special handling:
with a cycle open it is merely appended to the pending buffer, otherwise
it is emitted as a `StandaloneEvent`; no `PhaseMarker` is produced for
it. -/
theorem groupEvents_speech_stop_no_marker :
    PHASE_EVENTS.SPEECH_STOP = "input_audio_buffer.speech_stopped" ∧
    (∀ (st : GState) (c : ResponseCycle) (e : ParsedLogLine),
      typeIs e PHASE_EVENTS.SPEECH_STOP = true → st.currentCycle = some c →
      groupStep st e = { st with cycleEvents := st.cycleEvents ++ [e] }) ∧
    (∀ (st : GState) (e : ParsedLogLine),
      typeIs e PHASE_EVENTS.SPEECH_STOP = true → st.currentCycle = none →
      groupStep st e = { st with result := st.result ++ [.standalone e] }) := by
  refine ⟨rfl, ?_, ?_⟩
  · intro st c e h hcur
    exact groupStep_buffered st c e hcur
      (typeIs_unique e _ _ h (by decide)) (typeIs_unique e _ _ h (by decide))
      (typeIs_unique e _ _ h (by decide)) (typeIs_unique e _ _ h (by decide))
  · intro st e h hcur
    exact groupStep_plain_closed st e hcur
      (typeIs_unique e _ _ h (by decide)) (typeIs_unique e _ _ h (by decide))
      (typeIs_unique e _ _ h (by decide)) (typeIs_unique e _ _ h (by decide))
      (typeIs_unique e _ _ h (by decide))

theorem groupEvents_speech_stop_no_marker_witness :
    groupStep ⟨[], some ⟨none, evStart, none, [], none⟩, [evStart]⟩
        evSpeechStop =
      ⟨[], some ⟨none, evStart, none, [], none⟩, [evStart] ++ [evSpeechStop]⟩ ∧
    groupStep ⟨[], none, []⟩ evSpeechStop =
      ⟨[] ++ [.standalone evSpeechStop], none, []⟩ :=
  ⟨groupEvents_speech_stop_no_marker.2.1 ⟨[], some ⟨none, evStart, none, [],
      none⟩, [evStart]⟩ ⟨none, evStart, none, [], none⟩ evSpeechStop rfl rfl,
   groupEvents_speech_stop_no_marker.2.2 ⟨[], none, []⟩ evSpeechStop rfl rfl⟩

-- ===========================================================================
-- C4
-- ===========================================================================

theorem aggFold_wf (l : List ParsedLogLine) :
    ∀ (result : List CycleItem) (cur : Option DeltaGroup),
      (∀ g : DeltaGroup, CycleItem.group g ∈ result → groupWellFormed g) →
      (∀ g : DeltaGroup, cur = some g → groupWellFormed g) →
      ∀ g : DeltaGroup,
        CycleItem.group g ∈ aggFinish (l.foldl aggStep (result, cur)) →
        groupWellFormed g := by
  induction l with
  | nil =>
    intro result cur hres hcur g hg
    rw [List.foldl_nil] at hg
    rcases cur with _ | g0
    · exact hres g (by simpa [aggFinish] using hg)
    · simp only [aggFinish, List.mem_append, List.mem_singleton] at hg
      rcases hg with h | h
      · exact hres g h
      · cases h
        exact hcur _ rfl
  | cons e rest ih =>
    intro result cur hres hcur g hg
    rw [List.foldl_cons] at hg
    by_cases hd : isDeltaLine e = true
    · obtain ⟨t, htype, hc⟩ := (isDeltaLine_iff e).mp hd
      rcases cur with _ | g0
      · rw [aggStep_delta_new e result none t htype hc (by simp)] at hg
        refine ih _ _ ?_ ?_ g hg
        · intro g' hg'
          exact hres g' (by simpa [aggFinish] using hg')
        · intro g' hg'
          cases hg'
          refine ⟨by simp, ?_, by simp, by simp⟩
          intro e' he'
          simp at he'
          subst he'
          exact htype
      · by_cases hbe : g0.eventType = t
        · rw [aggStep_delta_merge e result g0 t htype hc hbe] at hg
          refine ih _ _ hres ?_ g hg
          intro g' hg'
          cases hg'
          obtain ⟨hne, hty, hhd, _⟩ := hcur g0 rfl
          obtain ⟨h0, t0, h0eq⟩ := List.exists_cons_of_ne_nil hne
          refine ⟨by simp, ?_, ?_, ?_⟩
          · intro e' he'
            simp only [List.mem_append, List.mem_singleton] at he'
            rcases he' with h | h
            · exact hty e' h
            · subst h
              rw [hbe]
              exact htype
          · rw [h0eq] at hhd ⊢
            simpa using hhd
          · simp [List.getLast?_concat]
        · rw [aggStep_delta_new e result (some g0) t htype hc
            (fun g' hg' => by cases hg'; exact hbe)] at hg
          refine ih _ _ ?_ ?_ g hg
          · intro g' hg'
            simp only [aggFinish, List.mem_append, List.mem_singleton] at hg'
            rcases hg' with h | h
            · exact hres g' h
            · cases h
              exact hcur g0 rfl
          · intro g' hg'
            cases hg'
            refine ⟨by simp, ?_, by simp, by simp⟩
            intro e' he'
            simp at he'
            subst he'
            exact htype
    · rw [aggStep_not_delta e result cur (by simpa using hd)] at hg
      refine ih _ _ ?_ (by simp) g hg
      intro g' hg'
      simp only [List.mem_append, List.mem_singleton] at hg'
      rcases hg' with h | h
      · rcases cur with _ | g0
        · exact hres g' (by simpa [aggFinish] using h)
        · simp only [aggFinish, List.mem_append, List.mem_singleton] at h
          rcases h with h' | h'
          · exact hres g' h'
          · cases h'
            exact hcur _ rfl
      · cases h

theorem itemsLines_cons (it : CycleItem) (rest : List CycleItem) :
    itemsLines (it :: rest) = cycleItemLines it ++ itemsLines rest := by
  simp [itemsLines]

theorem group_mem_infix (items : List CycleItem) (g : DeltaGroup)
    (h : CycleItem.group g ∈ items) : g.events <:+: itemsLines items := by
  induction items with
  | nil => simp at h
  | cons it rest ih =>
    rcases List.mem_cons.mp h with h' | h'
    · subst h'
      exact ⟨[], itemsLines rest, by simp [itemsLines_cons, cycleItemLines]⟩
    · exact (ih h').trans
        (itemsLines_cons it rest ▸ (List.suffix_append _ _).isInfix)

/-- C4: every `DeltaGroup` produced by delta aggregation has a non-empty
member list, all members carry the group's `event_type`,
`firstLineNumber`/`lastLineNumber` are the first and last members' line
numbers, and the members form a contiguous segment of the input (so no
event of a different type lies between them). -/
theorem aggregateDeltaEvents_group_invariants (events : List ParsedLogLine)
    (g : DeltaGroup) (hg : CycleItem.group g ∈ aggregateDeltaEvents events) :
    g.events ≠ [] ∧
      (∀ e ∈ g.events, jsGet e.event "type" = some (.str g.eventType)) ∧
      g.events.head?.map (·.lineNumber) = some g.firstLineNumber ∧
      g.events.getLast?.map (·.lineNumber) = some g.lastLineNumber ∧
      g.events <:+: events := by
  have hg' : CycleItem.group g ∈ aggFinish (events.foldl aggStep ([], none)) := by
    simpa [aggregateDeltaEvents] using hg
  have hwf := aggFold_wf events [] none (by simp) (by simp) g hg'
  have hinf := group_mem_infix (aggregateDeltaEvents events) g hg
  rw [aggregateDeltaEvents_flatten] at hinf
  exact ⟨hwf.1, hwf.2.1, hwf.2.2.1, hwf.2.2.2, hinf⟩

theorem aggregateDeltaEvents_group_invariants_witness :
    let e1 := evTextDelta 1 "a"
    let g : DeltaGroup := ⟨"response.text.delta", [evTextDelta 1 "a"], 1, 1⟩
    g.events ≠ [] ∧
      (∀ e ∈ g.events, jsGet e.event "type" = some (.str g.eventType)) ∧
      g.events.head?.map (·.lineNumber) = some g.firstLineNumber ∧
      g.events.getLast?.map (·.lineNumber) = some g.lastLineNumber ∧
      g.events <:+: [e1] :=
  aggregateDeltaEvents_group_invariants [evTextDelta 1 "a"]
    ⟨"response.text.delta", [evTextDelta 1 "a"], 1, 1⟩ (List.mem_cons_self _ _)

-- ===========================================================================
-- C5 and C7: decoder shape and segmentation
-- ===========================================================================

theorem parseLogLineW_eq (line : String) (n : Nat) :
    parseLogLineW line n =
      if (trimList line.toList).isEmpty then (none, [])
      else
        match jsonParse (String.mk (decodeParts line).2.2.2) with
        | some v =>
          (some ⟨(decodeParts line).1, (decodeParts line).2.1,
                 (decodeParts line).2.2.1, v, line, n⟩, [])
        | none => (none, [⟨n, String.mk ((decodeParts line).2.2.2.take 100)⟩]) :=
  rfl

theorem decodeRemainder_eq (line : String) :
    decodeRemainder line = (decodeParts line).2.2.2 := rfl

theorem parseLogLine_lineNumber (l : String) (n : Nat) (p : ParsedLogLine)
    (h : parseLogLine l n = some p) : p.lineNumber = n := by
  unfold parseLogLine at h
  rw [parseLogLineW_eq] at h
  by_cases he : (trimList l.toList).isEmpty
  · rw [if_pos he] at h
    simp at h
  · rw [if_neg he] at h
    rcases hj : jsonParse (String.mk (decodeParts l).2.2.2) with _ | v
    · rw [hj] at h
      simp at h
    · rw [hj] at h
      simp only [Option.some.injEq] at h
      rw [← h]

/-- C7: the decoder rejects a line exactly when it is blank (silently,
with no warning) or when the payload remainder after prefix extraction
fails to parse as JSON (in which case one warning with the line number and
the remainder truncated to 100 characters is emitted); otherwise it
decodes, and the overall parse is unaffected either way since
`parseLogLineW` is total. -/
theorem parseLogLine_reject_conditions (line : String) (n : Nat) :
    ((trimList line.toList).isEmpty = true → parseLogLineW line n = (none, [])) ∧
    ((trimList line.toList).isEmpty = false →
      jsonParse (String.mk (decodeRemainder line)) = none →
      parseLogLineW line n =
        (none, [⟨n, String.mk ((decodeRemainder line).take 100)⟩])) ∧
    ((trimList line.toList).isEmpty = false → ∀ v,
      jsonParse (String.mk (decodeRemainder line)) = some v →
      parseLogLineW line n =
        (some ⟨(decodeParts line).1, (decodeParts line).2.1,
               (decodeParts line).2.2.1, v, line, n⟩, [])) := by
  rw [parseLogLineW_eq]
  refine ⟨?_, ?_, ?_⟩
  · intro he
    rw [if_pos he]
  · intro he hj
    rw [decodeRemainder_eq] at hj
    rw [if_neg (fun hcon => Bool.false_ne_true (he ▸ hcon)), hj]
    rw [decodeRemainder_eq]
  · intro he v hj
    rw [decodeRemainder_eq] at hj
    rw [if_neg (fun hcon => Bool.false_ne_true (he ▸ hcon)), hj]

theorem parseLogLine_reject_conditions_witness :
    parseLogLineW "   " 3 = (none, []) ∧
    parseLogLineW "[oops" 4 = (none, [⟨4, "[oops"⟩]) ∧
    parseLogLineW "\x7b\"a\":1\x7d" 5 =
      (some ⟨none, none, none, .obj [("a", .num 1)], "\x7b\"a\":1\x7d", 5⟩, []) :=
  ⟨(parseLogLine_reject_conditions "   " 3).1 rfl,
   (parseLogLine_reject_conditions "[oops" 4).2.1 rfl rfl,
   (parseLogLine_reject_conditions "\x7b\"a\":1\x7d" 5).2.2 rfl
     (.obj [("a", .num 1)]) rfl⟩

theorem decodedLinesGo_bound (ls : List String) :
    ∀ i, (∀ e ∈ decodedLinesGo ls i, i ≤ e.lineNumber) ∧
      List.Chain' (fun a b => a.lineNumber < b.lineNumber)
        (decodedLinesGo ls i) := by
  induction ls with
  | nil => intro i; simp [decodedLinesGo]
  | cons l ls ih =>
    intro i
    unfold decodedLinesGo
    rcases hp : parseLogLine l i with _ | p
    · obtain ⟨hb, hc⟩ := ih (i + 1)
      exact ⟨fun e he => Nat.le_of_succ_le (hb e he), hc⟩
    · have hpn := parseLogLine_lineNumber l i p hp
      obtain ⟨hb, hc⟩ := ih (i + 1)
      constructor
      · intro e he
        rcases List.mem_cons.mp he with h | h
        · subst h; omega
        · exact Nat.le_of_succ_le (hb e h)
      · rw [List.chain'_cons']
        refine ⟨?_, hc⟩
        intro y hy
        have := hb y (List.mem_of_mem_head? hy)
        omega

theorem parseLogGo_cons (l : String) (ls : List String) (i : Nat)
    (done : List Session) (cur : Option Session) (ctr : Nat) :
    parseLogGo (l :: ls) i done cur ctr =
      match parseLogLine l i with
      | none => parseLogGo ls (i + 1) done cur ctr
      | some parsed =>
        if isSessionCreated parsed then
          parseLogGo ls (i + 1) (done ++ cur.toList)
            (some (newSessionOf (ctr + 1) parsed)) (ctr + 1)
        else
          match cur with
          | some s =>
            parseLogGo ls (i + 1) done
              (some { s with events := s.events ++ [parsed] }) ctr
          | none =>
            parseLogGo ls (i + 1) done
              (some (implicitSessionOf (ctr + 1) parsed)) (ctr + 1) := rfl

theorem decodedLinesGo_cons (l : String) (ls : List String) (i : Nat) :
    decodedLinesGo (l :: ls) i =
      match parseLogLine l i with
      | none => decodedLinesGo ls (i + 1)
      | some parsed => parsed :: decodedLinesGo ls (i + 1) := rfl

theorem parseLogGo_flatten (ls : List String) :
    ∀ (i : Nat) (done : List Session) (cur : Option Session) (ctr : Nat),
      flattenSessions (parseLogGo ls i done cur ctr) =
        flattenSessions done ++ cur.elim [] Session.events ++
          decodedLinesGo ls i := by
  induction ls with
  | nil =>
    intro i done cur ctr
    rcases cur with _ | s <;>
      simp [parseLogGo, decodedLinesGo, flattenSessions]
  | cons l ls ih =>
    intro i done cur ctr
    rcases cur with _ | s
    · rcases hp : parseLogLine l i with _ | p
      · simp only [parseLogGo_cons, decodedLinesGo_cons, hp]
        exact ih (i + 1) done none ctr
      · simp only [parseLogGo_cons, decodedLinesGo_cons, hp]
        by_cases hc : isSessionCreated p
        · rw [if_pos hc, ih]
          simp [flattenSessions, newSessionOf, Option.toList]
        · rw [if_neg hc, ih]
          simp [flattenSessions, implicitSessionOf]
    · rcases hp : parseLogLine l i with _ | p
      · simp only [parseLogGo_cons, decodedLinesGo_cons, hp]
        exact ih (i + 1) done (some s) ctr
      · simp only [parseLogGo_cons, decodedLinesGo_cons, hp]
        by_cases hc : isSessionCreated p
        · rw [if_pos hc, ih]
          simp [flattenSessions, newSessionOf, Option.toList]
        · rw [if_neg hc, ih]
          simp [flattenSessions]

/-- C5: `parseLogFile` partitions the successfully decoded lines — the
concatenation of all sessions' events is exactly the decoded-line stream
in order (each decoded line in exactly one session), each session's
events are in strictly increasing line-number order, a stream with
`session.created` at lines 1 and 5 yields two sessions owning lines 1–4
and 5–6, and lines preceding the first start marker go into a synthesized
implicit session. -/
theorem parseLogFile_partitions :
    (∀ content, flattenSessions (parseLogFile content) =
      decodedLines content) ∧
    (∀ content, ∀ s ∈ parseLogFile content,
      List.Chain' (fun a b => a.lineNumber < b.lineNumber) s.events) ∧
    (parseLogFile segContent).map (fun s => s.events.map (·.lineNumber)) =
      [[1, 2, 3, 4], [5, 6]] ∧
    (parseLogFile segContent2).map
        (fun s => (s.id, s.events.map (·.lineNumber))) =
      [("session-1", [1]), ("session-2", [2])] := by
  have hflat : ∀ content, flattenSessions (parseLogFile content) =
      decodedLines content := by
    intro content
    have h := parseLogGo_flatten (splitLines content) 1 [] none 0
    simpa [parseLogFile, decodedLines, flattenSessions] using h
  refine ⟨hflat, ?_, by decide, by decide⟩
  intro content s hs
  have hsub : List.Sublist s.events (decodedLines content) := by
    rw [← hflat content]
    exact List.sublist_flatten_of_mem
      (List.mem_map_of_mem (fun s => s.events) hs)
  have hchain : List.Chain' (fun a b => a.lineNumber < b.lineNumber)
      (decodedLines content) :=
    (decodedLinesGo_bound (splitLines content) 1).2
  haveI : IsTrans ParsedLogLine (fun a b => a.lineNumber < b.lineNumber) :=
    ⟨fun _ _ _ h1 h2 => Nat.lt_trans h1 h2⟩
  rw [List.chain'_iff_pairwise] at hchain ⊢
  exact hchain.sublist hsub

theorem parseLogFile_partitions_witness :
    List.Chain' (fun a b => a.lineNumber < b.lineNumber)
      (Session.events ⟨"session-1", none, none,
        [⟨none, none, none, .obj [("a", .num 1)], "\x7b\"a\":1\x7d", 1⟩],
        none, none⟩) :=
  parseLogFile_partitions.2.1 "\x7b\"a\":1\x7d" _ (List.mem_cons_self _ _)

-- ===========================================================================
-- C9
-- ===========================================================================

theorem bytesToInt16_cons (x : Int) (rest : List Nat)
    (hx : -32768 ≤ x ∧ x < 32768) :
    bytesToInt16 ((x % 65536).toNat % 256 :: (x % 65536).toNat / 256 :: rest) =
      x :: bytesToInt16 rest := by
  have h1 : (0 : Int) ≤ x % 65536 := Int.emod_nonneg x (by norm_num)
  have h3 : ((x % 65536).toNat : Int) = x % 65536 := Int.toNat_of_nonneg h1
  have hu : (x % 65536).toNat % 256 + 256 * ((x % 65536).toNat / 256) =
      (x % 65536).toNat := Nat.mod_add_div _ _
  simp only [bytesToInt16, hu]
  congr 1
  split_ifs with hcond <;> omega

theorem int16ToBytesLE_cons (x : Int) (xs : List Int) :
    int16ToBytesLE (x :: xs) =
      (x % 65536).toNat % 256 :: (x % 65536).toNat / 256 ::
        int16ToBytesLE xs := by
  simp [int16ToBytesLE]

theorem bytesToInt16_int16ToBytesLE (samples : List Int)
    (h : ∀ x ∈ samples, -32768 ≤ x ∧ x < 32768) :
    bytesToInt16 (int16ToBytesLE samples) = samples := by
  induction samples with
  | nil => rfl
  | cons x xs ih =>
    rw [int16ToBytesLE_cons,
      bytesToInt16_cons x _ (h x (List.mem_cons_self _ _)),
      ih (fun y hy => h y (List.mem_cons_of_mem _ hy))]

theorem int16ToBytesLE_length (samples : List Int) :
    (int16ToBytesLE samples).length = 2 * samples.length := by
  induction samples with
  | nil => rfl
  | cons x xs ih =>
    rw [int16ToBytesLE_cons]
    simp only [List.length_cons, ih]
    omega

theorem mkRat_32768 (n : Int) : mkRat n 32768 = (n : ℚ) / 32768 := by
  rw [Rat.mkRat_eq_divInt, Rat.divInt_eq_div]
  norm_num

/-- C9: decoding a valid base64 chunk that encodes little-endian signed
16-bit samples yields one value per sample, equal to the sample divided by
32768 and lying in `[-1, 1]`; and the encoding of `[16384, -16384]`
decodes to `[0.5, -0.5]`.  (Each value `s / 32768` has at most 15
fraction bits, so equality over `ℚ` matches the `Float32Array` the source
produces exactly.) -/
theorem decodeAudioDelta_normalization :
    (∀ (s : String) (samples : List Int),
      (∀ x ∈ samples, -32768 ≤ x ∧ x < 32768) →
      atob s = some (int16ToBytesLE samples) →
      decodeAudioDelta s =
          some (samples.map (fun x : Int => (x : ℚ) / 32768)) ∧
        ∀ x ∈ samples, -1 ≤ (x : ℚ) / 32768 ∧ (x : ℚ) / 32768 ≤ 1) ∧
    decodeAudioDelta (b64encode (int16ToBytesLE [16384, -16384])) =
      some [(1 : ℚ) / 2, (-1 : ℚ) / 2] := by
  constructor
  · intro s samples hrange hatob
    constructor
    · have hstep : decodeAudioDelta s =
          if (int16ToBytesLE samples).length % 2 = 0 then
            some ((bytesToInt16 (int16ToBytesLE samples)).map
              (fun s => mkRat s 32768))
          else none := by
        unfold decodeAudioDelta
        rw [hatob]
      rw [hstep, if_pos (by rw [int16ToBytesLE_length]; omega)]
      rw [bytesToInt16_int16ToBytesLE samples hrange]
      have hfn : (fun x : Int => mkRat x 32768) =
          fun x : Int => (x : ℚ) / 32768 := funext (fun x => mkRat_32768 x)
      rw [hfn]
    · intro x hx
      obtain ⟨hlo, hhi⟩ := hrange x hx
      constructor
      · rw [le_div_iff (by norm_num : (0 : ℚ) < 32768)]
        have : (-32768 : ℚ) ≤ (x : ℚ) := by exact_mod_cast hlo
        linarith
      · rw [div_le_one (by norm_num : (0 : ℚ) < 32768)]
        have : (x : ℚ) < 32768 := by exact_mod_cast hhi
        linarith
  · have h1 : decodeAudioDelta (b64encode (int16ToBytesLE [16384, -16384])) =
        some [mkRat 16384 32768, mkRat (-16384) 32768] := rfl
    rw [h1, mkRat_32768, mkRat_32768]
    norm_num

theorem decodeAudioDelta_normalization_witness :
    decodeAudioDelta "AEAAwA==" =
        some (([16384, -16384] : List Int).map
          (fun x : Int => (x : ℚ) / 32768)) ∧
      ∀ x ∈ ([16384, -16384] : List Int),
        -1 ≤ (x : ℚ) / 32768 ∧ (x : ℚ) / 32768 ≤ 1 :=
  decodeAudioDelta_normalization.1 "AEAAwA==" [16384, -16384]
    (by decide) rfl

-- ===========================================================================
-- C8
-- ===========================================================================

theorem extractChunks_eq (events : List ParsedLogLine) :
    extractChunks events = nonEmptyDecodedChunks events := by
  induction events with
  | nil => rfl
  | cons e rest ih =>
    rcases hd : jsGet e.event "delta" with _ | j
    · simpa [extractChunks, nonEmptyDecodedChunks, List.filterMap_cons, hd]
        using ih
    · cases j with
      | str s =>
        by_cases hlen : s.length > 0
        · rcases hdec : decodeAudioDelta s with _ | d
          · simpa [extractChunks, nonEmptyDecodedChunks, List.filterMap_cons,
              hd, hlen, hdec] using ih
          · by_cases hdl : d.length > 0
            · simpa [extractChunks, nonEmptyDecodedChunks,
                List.filterMap_cons, hd, hlen, hdec, hdl] using ih
            · simpa [extractChunks, nonEmptyDecodedChunks,
                List.filterMap_cons, hd, hlen, hdec, hdl] using ih
        · simpa [extractChunks, nonEmptyDecodedChunks, List.filterMap_cons,
            hd, hlen] using ih
      | null =>
        simpa [extractChunks, nonEmptyDecodedChunks, List.filterMap_cons, hd]
          using ih
      | bool b =>
        simpa [extractChunks, nonEmptyDecodedChunks, List.filterMap_cons, hd]
          using ih
      | num q =>
        simpa [extractChunks, nonEmptyDecodedChunks, List.filterMap_cons, hd]
          using ih
      | arr xs =>
        simpa [extractChunks, nonEmptyDecodedChunks, List.filterMap_cons, hd]
          using ih
      | obj fs =>
        simpa [extractChunks, nonEmptyDecodedChunks, List.filterMap_cons, hd]
          using ih

/-- C8 counterexample: the claim "returns null exactly when zero chunks
decode successfully" fails on a whitespace-only delta string — `atob`
strips ASCII whitespace, so `" "` decodes successfully (to zero samples),
yet `extractAudioFromDeltaGroup` returns null, while the spec-modelled
`extractFromDeltaRun` keeps the successfully decoded chunk and returns an
empty buffer. -/
theorem extractAudio_whitespace_counterexample :
    decodeAudioDelta " " = some [] ∧
      jsGet evWsDelta.event "delta" = some (.str " ") ∧
      extractAudioFromDeltaGroup [evWsDelta] = none ∧
      specExtractFromDeltaRun [evWsDelta] = some [] :=
  ⟨rfl, rfl, rfl, rfl⟩

/-- C8 (amended): `extractAudioFromDeltaGroup` returns null exactly when
zero chunks decode successfully to a non-empty sample buffer (in
particular when every fragment failed, was empty or absent, or the run was
empty); otherwise it returns the combination, in input order, of the
non-empty successfully decoded chunks among events with a non-empty
string delta payload, skipping failing fragments without an exception. -/
theorem extractAudio_nodata_conditions (events : List ParsedLogLine) :
    (extractAudioFromDeltaGroup events = none ↔
      nonEmptyDecodedChunks events = []) ∧
    (nonEmptyDecodedChunks events ≠ [] →
      extractAudioFromDeltaGroup events =
        some (combineAudioChunks (nonEmptyDecodedChunks events))) := by
  unfold extractAudioFromDeltaGroup
  rw [extractChunks_eq]
  constructor
  · by_cases h : nonEmptyDecodedChunks events = [] <;> simp [h]
  · intro h
    simp [h]

theorem extractAudio_nodata_conditions_witness :
    extractAudioFromDeltaGroup [evAudioDelta] =
      some (combineAudioChunks (nonEmptyDecodedChunks [evAudioDelta])) :=
  (extractAudio_nodata_conditions [evAudioDelta]).2 (by decide)

-- ===========================================================================
-- C6: helper lemmas about whitespace, trimming and the prefix matchers
-- ===========================================================================

theorem dropWhile_eq_self_of_head (p : Char → Bool) (l : List Char)
    (h : ∀ c, l.head? = some c → p c = false) : l.dropWhile p = l := by
  cases l with
  | nil => rfl
  | cons c t =>
    rw [List.dropWhile_cons, h c rfl]
    simp

theorem eatWs_append (w rest : List Char) (hw : w.all isWsChar = true)
    (hrest : ∀ c, rest.head? = some c → isWsChar c = false) :
    eatWs (w ++ rest) = rest := by
  induction w with
  | nil => exact dropWhile_eq_self_of_head _ _ hrest
  | cons c w' ih =>
    simp only [List.all_cons, Bool.and_eq_true] at hw
    show eatWs (c :: (w' ++ rest)) = rest
    unfold eatWs
    rw [List.dropWhile_cons, hw.1]
    simpa using ih hw.2

theorem takeWhile_append_all (p : Char → Bool) (a b : List Char)
    (ha : a.all p = true) (hb : ∀ c, b.head? = some c → p c = false) :
    (a ++ b).takeWhile p = a ∧ (a ++ b).dropWhile p = b := by
  induction a with
  | nil =>
    refine ⟨?_, dropWhile_eq_self_of_head p b hb⟩
    cases b with
    | nil => rfl
    | cons c t =>
      rw [List.nil_append, List.takeWhile_cons, hb c rfl]
      simp
  | cons x a' ih =>
    simp only [List.all_cons, Bool.and_eq_true] at ha
    obtain ⟨h1, h2⟩ := ih ha.2
    constructor
    · simp [List.takeWhile_cons, ha.1, h1]
    · simp [List.dropWhile_cons, ha.1, h2]

theorem trimList_eq_self (l : List Char)
    (hhead : ∀ c, l.head? = some c → isWsChar c = false)
    (hlast : ∀ c, l.getLast? = some c → isWsChar c = false) :
    trimList l = l := by
  unfold trimList
  rw [dropWhile_eq_self_of_head _ _ hhead]
  rw [dropWhile_eq_self_of_head _ _ (by
    intro c hc
    rw [List.head?_reverse] at hc
    exact hlast c hc)]
  exact List.reverse_reverse l

theorem trimList_length_le (l : List Char) :
    (trimList l).length ≤ (l.dropWhile isWsChar).length := by
  unfold trimList
  rw [List.length_reverse]
  calc ((l.dropWhile isWsChar).reverse.dropWhile isWsChar).length
      ≤ (l.dropWhile isWsChar).reverse.length :=
        (List.dropWhile_sublist _).length_le
    _ = (l.dropWhile isWsChar).length := List.length_reverse _

theorem trimList_fixpoint_head (l : List Char) (h : trimList l = l) :
    ∀ c, l.head? = some c → isWsChar c = false := by
  intro c hc
  rcases l with _ | ⟨c', t⟩
  · cases hc
  · have hcc : c' = c := by simpa using hc
    subst hcc
    by_cases hws : isWsChar c' = true
    · exfalso
      have h1 := trimList_length_le (c' :: t)
      rw [h, List.dropWhile_cons, hws] at h1
      have h2 := (List.dropWhile_sublist (l := t) isWsChar).length_le
      simp at h1
      omega
    · exact Bool.of_not_eq_true hws

theorem trimList_fixpoint_last (l : List Char) (h : trimList l = l) :
    ∀ c, l.getLast? = some c → isWsChar c = false := by
  intro c hc
  by_cases hws : isWsChar c = true
  · exfalso
    rcases hd : l.dropWhile isWsChar with _ | ⟨d0, d⟩
    · -- the whole list is whitespace, so the trim is empty; yet it equals l
      have : trimList l = [] := by
        unfold trimList
        rw [hd]
        rfl
      rw [h] at this
      subst this
      cases hc
    · -- the dropWhile result is a non-empty suffix of l, so it has l's last
      obtain ⟨pre, hpre⟩ := List.dropWhile_suffix (l := l) isWsChar
      have hne : l.dropWhile isWsChar ≠ [] := by
        rw [hd]
        simp
      have hlast2 : (l.dropWhile isWsChar).getLast? = some c := by
        rw [← hpre] at hc
        rw [List.getLast?_append_of_ne_nil pre hne] at hc
        exact hc
      have hrevhead : (l.dropWhile isWsChar).reverse.head? = some c := by
        rw [List.head?_reverse]
        exact hlast2
      rcases hr : (l.dropWhile isWsChar).reverse with _ | ⟨r0, r⟩
      · rw [hr] at hrevhead
        cases hrevhead
      · have hr0 : r0 = c := by
          rw [hr] at hrevhead
          simpa using hrevhead
        subst hr0
        have hlen : (trimList l).length ≤ r.length := by
          unfold trimList
          rw [hr, List.length_reverse, List.dropWhile_cons, hws]
          exact (List.dropWhile_sublist _).length_le
        have hrlen : (l.dropWhile isWsChar).length = r.length + 1 := by
          have := congrArg List.length hr
          simpa using this
        have hdlen : (l.dropWhile isWsChar).length ≤ l.length :=
          (List.dropWhile_sublist _).length_le
        rw [h] at hlen
        omega
  · exact Bool.of_not_eq_true hws

theorem tsMatch_none_not_digit (c : Char) (cs : List Char)
    (h : c.isDigit = false) : tsMatch (c :: cs) = none := by
  unfold tsMatch
  split <;> simp_all [List.all_cons]

theorem uuidMatch_none_not_tag (c1 : Char) (cs : List Char)
    (h : isTagChar c1 = false) : uuidMatch ('[' :: c1 :: cs) = none := by
  unfold uuidMatch
  simp [List.takeWhile_cons, h]

theorem jsonWs_eq_true_iff (c : Char) :
    jsonWs c = true ↔ c = ' ' ∨ c = '\t' ∨ c = '\n' ∨ c = '\r' := by
  unfold jsonWs
  simp [Bool.or_eq_true, decide_eq_true_eq]
  tauto

theorem digit_not_jsonWs (c : Char) (h : c.isDigit = true) :
    jsonWs c = false := by
  by_cases hw : jsonWs c = true
  · rcases (jsonWs_eq_true_iff c).mp hw with h' | h' | h' | h' <;>
      subst h' <;> simp at h
  · exact Bool.of_not_eq_true hw

theorem skipWs_cons_of_not_ws (c : Char) (cs : List Char)
    (h : jsonWs c = false) : skipWs (c :: cs) = c :: cs := by
  unfold skipWs
  rw [List.dropWhile_cons, h]
  simp

theorem parseNumber_none_of_bad_head (c : Char) (rest : List Char)
    (h7 : c.isDigit = false) (h8 : c ≠ '-') :
    parseNumber (c :: rest) = none := by
  unfold parseNumber
  split
  · next heq => exact absurd (List.head_eq_of_cons_eq heq) h8
  · unfold parseNumberMag
    have h0 : ¬ c = '0' := by
      intro hcon
      subst hcon
      simp at h7
    simp [h0, h7]

set_option maxHeartbeats 2000000 in
theorem parseValueCore_none_of_bad_head (F : Nat) (c : Char)
    (rest : List Char)
    (h1 : c ≠ '{') (h2 : c ≠ '[') (h3 : c ≠ '"') (h4 : c ≠ 't') (h5 : c ≠ 'f')
    (h6 : c ≠ 'n') (h7 : c.isDigit = false) (h8 : c ≠ '-') :
    parseValueCore F (c :: rest) = none := by
  unfold parseValueCore
  split
  · next heq => exact absurd (List.head_eq_of_cons_eq heq) h1
  · next heq => exact absurd (List.head_eq_of_cons_eq heq) h2
  · next heq => exact absurd (List.head_eq_of_cons_eq heq) h3
  · next heq => exact absurd (List.head_eq_of_cons_eq heq) h4
  · next heq => exact absurd (List.head_eq_of_cons_eq heq) h5
  · next heq => exact absurd (List.head_eq_of_cons_eq heq) h6
  · rw [parseNumber_none_of_bad_head c rest h7 h8]
    rfl

/-- A head character that starts no JSON token makes `parseValue` fail. -/
theorem parseValue_none_of_bad_head (F : Nat) (c : Char) (rest : List Char)
    (hws : jsonWs c = false)
    (h1 : c ≠ '{') (h2 : c ≠ '[') (h3 : c ≠ '"') (h4 : c ≠ 't') (h5 : c ≠ 'f')
    (h6 : c ≠ 'n') (h7 : c.isDigit = false) (h8 : c ≠ '-') :
    parseValue F (c :: rest) = none := by
  cases F with
  | zero => rfl
  | succ F =>
    show parseValueCore F (skipWs (c :: rest)) = none
    rw [skipWs_cons_of_not_ws c rest hws]
    exact parseValueCore_none_of_bad_head F c rest h1 h2 h3 h4 h5 h6 h7 h8

theorem parseElementsItems_none_of_bad_head (F : Nat) (c : Char)
    (rest : List Char) (hws : jsonWs c = false)
    (h1 : c ≠ '{') (h2 : c ≠ '[') (h3 : c ≠ '"') (h4 : c ≠ 't') (h5 : c ≠ 'f')
    (h6 : c ≠ 'n') (h7 : c.isDigit = false) (h8 : c ≠ '-') :
    parseElementsItems F (c :: rest) = none := by
  cases F with
  | zero => rfl
  | succ F =>
    unfold parseElementsItems
    rw [parseValue_none_of_bad_head F c rest hws h1 h2 h3 h4 h5 h6 h7 h8]

theorem parseElements_none_of_bad_head (F : Nat) (c : Char)
    (rest : List Char) (hws : jsonWs c = false) (h0 : c ≠ ']')
    (h1 : c ≠ '{') (h2 : c ≠ '[') (h3 : c ≠ '"') (h4 : c ≠ 't') (h5 : c ≠ 'f')
    (h6 : c ≠ 'n') (h7 : c.isDigit = false) (h8 : c ≠ '-') :
    parseElements F (c :: rest) = none := by
  cases F with
  | zero => rfl
  | succ F =>
    unfold parseElements
    rw [skipWs_cons_of_not_ws c rest hws]
    split
    · next heq => exact absurd (List.head_eq_of_cons_eq heq) h0
    · rw [parseElementsItems_none_of_bad_head F c rest hws h1 h2 h3 h4 h5 h6
        h7 h8]
      rfl

/-- `parseValue` fails on `[` followed by a character that cannot start a
JSON value (such as the letters of `OPENAI` or `USER`). -/
theorem parseValue_none_of_bracket_bad (F : Nat) (c : Char)
    (rest : List Char) (hws : jsonWs c = false) (h0 : c ≠ ']')
    (h1 : c ≠ '{') (h2 : c ≠ '[') (h3 : c ≠ '"') (h4 : c ≠ 't') (h5 : c ≠ 'f')
    (h6 : c ≠ 'n') (h7 : c.isDigit = false) (h8 : c ≠ '-') :
    parseValue F ('[' :: c :: rest) = none := by
  cases F with
  | zero => rfl
  | succ F =>
    show parseValueCore F (skipWs ('[' :: c :: rest)) = none
    rw [skipWs_cons_of_not_ws '[' (c :: rest) (by decide)]
    show parseElements F (c :: rest) = none
    exact parseElements_none_of_bad_head F c rest hws h0 h1 h2 h3 h4 h5 h6 h7 h8

theorem srcMatch_shape (cs : List Char) (h : srcMatch cs ≠ none) :
    ∃ c1 rest, cs = '[' :: c1 :: rest ∧
      (c1 = 'O' ∨ c1 = 'o' ∨ c1 = 'U' ∨ c1 = 'u') := by
  have huser : ∀ cs' : List Char, srcMatchUser cs' ≠ none →
      ∃ c1 rest, cs' = '[' :: c1 :: rest ∧
        (c1 = 'O' ∨ c1 = 'o' ∨ c1 = 'U' ∨ c1 = 'u') := by
    intro cs' h'
    unfold srcMatchUser at h'
    split at h'
    · next c1 c2 c3 c4 r =>
      split at h'
      · next hguard =>
        simp only [isCh, Bool.and_eq_true, Bool.or_eq_true,
          decide_eq_true_eq] at hguard
        exact ⟨c1, _, rfl, by tauto⟩
      · exact absurd rfl h'
    · exact absurd rfl h'
  unfold srcMatch at h
  split at h
  · next c1 c2 c3 c4 c5 c6 r =>
    split at h
    · next hguard =>
      simp only [isCh, Bool.and_eq_true, Bool.or_eq_true,
        decide_eq_true_eq] at hguard
      exact ⟨c1, _, rfl, by tauto⟩
    · exact huser _ h
  · exact huser _ h

theorem jsonParse_none_of_srcMatch (p : String)
    (h : srcMatch p.toList ≠ none) : jsonParse p = none := by
  obtain ⟨c1, rest, hshape, hc1⟩ := srcMatch_shape _ h
  unfold jsonParse
  rw [hshape]
  have hbad : parseValue (2 * ('[' :: c1 :: rest).length + 4)
      ('[' :: c1 :: rest) = none := by
    rcases hc1 with h' | h' | h' | h' <;> subst h' <;>
      (apply parseValue_none_of_bracket_bad <;> decide)
  rw [hbad]

theorem pred_ne (p : Char → Bool) (c d : Char) (hc : p c = true)
    (hd : p d = false) : c ≠ d := by
  intro h
  subst h
  rw [hc] at hd
  exact absurd hd (by decide)

theorem isWsChar_eq_true_iff (c : Char) :
    isWsChar c = true ↔
      c = ' ' ∨ c = '\t' ∨ c = '\n' ∨ c = '\x0b' ∨ c = '\x0c' ∨ c = '\r' := by
  unfold isWsChar
  simp [Bool.or_eq_true, decide_eq_true_eq]
  tauto

theorem ws_not_timeChar (c : Char) (h : isWsChar c = true) :
    isTimeChar c = false := by
  rcases (isWsChar_eq_true_iff c).mp h with h' | h' | h' | h' | h' | h' <;>
    subst h' <;> decide

theorem digit_not_wsChar (c : Char) (h : c.isDigit = true) :
    isWsChar c = false := by
  by_cases hw : isWsChar c = true
  · rcases (isWsChar_eq_true_iff c).mp hw with h' | h' | h' | h' | h' | h' <;>
      subst h' <;> simp at h
  · exact Bool.of_not_eq_true hw

theorem tsStep_some (cs : List Char) (t : String) (r : List Char)
    (h : tsMatch cs = some (t, r)) : tsStep cs = (some t, r) := by
  unfold tsStep
  rw [h]

theorem tsStep_none (cs : List Char) (h : tsMatch cs = none) :
    tsStep cs = (none, cs) := by
  unfold tsStep
  rw [h]

theorem tagStep_some (cs : List Char) (t : String) (r : List Char)
    (h : uuidMatch cs = some (t, r)) : tagStep cs = (some t, r) := by
  unfold tagStep
  rw [h]

theorem tagStep_none (cs : List Char) (h : uuidMatch cs = none) :
    tagStep cs = (none, cs) := by
  unfold tagStep
  rw [h]

theorem srcStep_some (cs : List Char) (s : LogSource) (r : List Char)
    (h : srcMatch cs = some (s, r)) : srcStep cs = (some s, r) := by
  unfold srcStep
  rw [h]

theorem srcStep_none (cs : List Char) (h : srcMatch cs = none) :
    srcStep cs = (none, cs) := by
  unfold srcStep
  rw [h]

theorem parseNumberExp_no_exp (neg : Bool) (mant k : Nat) (c : Char)
    (cs : List Char) (he : c ≠ 'e') (hE : c ≠ 'E') :
    parseNumberExp neg mant k (c :: cs) =
      some (ratOfParts neg mant k 0, c :: cs) := by
  unfold parseNumberExp
  split
  · next heq => exact absurd (List.head_eq_of_cons_eq heq) he
  · next heq => exact absurd (List.head_eq_of_cons_eq heq) hE
  · rfl

theorem parseNumberFrac_no_frac (neg : Bool) (ip : Nat) (c : Char)
    (cs : List Char) (hdot : c ≠ '.') (he : c ≠ 'e') (hE : c ≠ 'E') :
    parseNumberFrac neg ip (c :: cs) =
      some (ratOfParts neg ip 0 0, c :: cs) := by
  unfold parseNumberFrac
  split
  · next heq => exact absurd (List.head_eq_of_cons_eq heq) hdot
  · exact parseNumberExp_no_exp neg ip 0 c cs he hE

theorem parseNumber_ts_prefix (y1 y2 y3 y4 : Char) (tail : List Char)
    (h1 : y1.isDigit = true) (h2 : y2.isDigit = true)
    (h3 : y3.isDigit = true) (h4 : y4.isDigit = true) :
    ∃ q c rr, parseNumber (y1 :: y2 :: y3 :: y4 :: '-' :: tail) =
      some (q, c :: rr) ∧ jsonWs c = false := by
  have hy1 : y1 ≠ '-' := pred_ne Char.isDigit y1 '-' h1 (by decide)
  have hred : parseNumberMag false (y1 :: y2 :: y3 :: y4 :: '-' :: tail) =
      if y1 = '0' then parseNumberFrac false 0 (y2 :: y3 :: y4 :: '-' :: tail)
      else if y1.isDigit = true then
        parseNumberFrac false
          (digitsToNat
            ((y1 :: y2 :: y3 :: y4 :: '-' :: tail).takeWhile Char.isDigit))
          ((y1 :: y2 :: y3 :: y4 :: '-' :: tail).dropWhile Char.isDigit)
      else none := rfl
  have key : ∃ q c rr,
      parseNumberMag false (y1 :: y2 :: y3 :: y4 :: '-' :: tail) =
        some (q, c :: rr) ∧ jsonWs c = false := by
    by_cases h0 : y1 = '0'
    · refine ⟨ratOfParts false 0 0 0, y2, y3 :: y4 :: '-' :: tail, ?_,
        digit_not_jsonWs y2 h2⟩
      rw [hred, if_pos h0]
      exact parseNumberFrac_no_frac false 0 y2 (y3 :: y4 :: '-' :: tail)
        (pred_ne Char.isDigit y2 '.' h2 (by decide))
        (pred_ne Char.isDigit y2 'e' h2 (by decide))
        (pred_ne Char.isDigit y2 'E' h2 (by decide))
    · refine ⟨ratOfParts false
        (digitsToNat
          ((y1 :: y2 :: y3 :: y4 :: '-' :: tail).takeWhile Char.isDigit)) 0 0,
        '-', tail, ?_, by decide⟩
      rw [hred, if_neg h0, if_pos h1]
      have hdw := (takeWhile_append_all Char.isDigit [y1, y2, y3, y4]
        ('-' :: tail) (by simp [h1, h2, h3, h4])
        (fun c hc => by
          simp only [List.head?_cons, Option.some.injEq] at hc
          subst hc
          decide)).2
      simp only [List.cons_append, List.nil_append] at hdw
      rw [hdw]
      exact parseNumberFrac_no_frac false _ '-' tail (by decide) (by decide)
        (by decide)
  obtain ⟨q, c, rr, hmag, hc⟩ := key
  refine ⟨q, c, rr, ?_, hc⟩
  unfold parseNumber
  split
  · next heq => exact absurd (List.head_eq_of_cons_eq heq) hy1
  · exact hmag

theorem tsMatch_shape (cs : List Char) (h : tsMatch cs ≠ none) :
    ∃ y1 y2 y3 y4 tail, cs = y1 :: y2 :: y3 :: y4 :: '-' :: tail ∧
      y1.isDigit = true ∧ y2.isDigit = true ∧ y3.isDigit = true ∧
      y4.isDigit = true := by
  unfold tsMatch at h
  split at h
  · next y1 y2 y3 y4 m1 m2 d1 d2 rest =>
    split at h
    · next hall =>
      simp only [List.all_cons, List.all_nil, Bool.and_eq_true] at hall
      exact ⟨y1, y2, y3, y4, _, rfl, hall.1, hall.2.1, hall.2.2.1,
        hall.2.2.2.1⟩
    · exact absurd rfl h
  · exact absurd rfl h

set_option maxHeartbeats 2000000 in
theorem parseValueCore_num (F : Nat) (c : Char) (rest : List Char)
    (h1 : c ≠ '{') (h2 : c ≠ '[') (h3 : c ≠ '"') (h4 : c ≠ 't')
    (h5 : c ≠ 'f') (h6 : c ≠ 'n') :
    parseValueCore F (c :: rest) =
      (parseNumber (c :: rest)).map (fun (q, r) => (Json.num q, r)) := by
  unfold parseValueCore
  split
  · next heq => exact absurd (List.head_eq_of_cons_eq heq) h1
  · next heq => exact absurd (List.head_eq_of_cons_eq heq) h2
  · next heq => exact absurd (List.head_eq_of_cons_eq heq) h3
  · next heq => exact absurd (List.head_eq_of_cons_eq heq) h4
  · next heq => exact absurd (List.head_eq_of_cons_eq heq) h5
  · next heq => exact absurd (List.head_eq_of_cons_eq heq) h6
  · rfl

theorem jsonParse_none_of_tsMatch (p : String) (h : tsMatch p.toList ≠ none) :
    jsonParse p = none := by
  obtain ⟨y1, y2, y3, y4, tail, hshape, h1, h2, h3, h4⟩ := tsMatch_shape _ h
  obtain ⟨q, c, rr, hpn, hcws⟩ :=
    parseNumber_ts_prefix y1 y2 y3 y4 tail h1 h2 h3 h4
  unfold jsonParse
  rw [hshape]
  have hfuel : 2 * (y1 :: y2 :: y3 :: y4 :: '-' :: tail).length + 4 =
      (2 * (y1 :: y2 :: y3 :: y4 :: '-' :: tail).length + 3) + 1 := rfl
  rw [hfuel]
  have hpv : parseValue
      ((2 * (y1 :: y2 :: y3 :: y4 :: '-' :: tail).length + 3) + 1)
      (y1 :: y2 :: y3 :: y4 :: '-' :: tail) = some (Json.num q, c :: rr) := by
    show parseValueCore (2 * (y1 :: y2 :: y3 :: y4 :: '-' :: tail).length + 3)
      (skipWs (y1 :: y2 :: y3 :: y4 :: '-' :: tail)) = _
    rw [skipWs_cons_of_not_ws y1 _ (digit_not_jsonWs y1 h1)]
    rw [parseValueCore_num _ y1 _
      (pred_ne Char.isDigit y1 '{' h1 (by decide))
      (pred_ne Char.isDigit y1 '[' h1 (by decide))
      (pred_ne Char.isDigit y1 '"' h1 (by decide))
      (pred_ne Char.isDigit y1 't' h1 (by decide))
      (pred_ne Char.isDigit y1 'f' h1 (by decide))
      (pred_ne Char.isDigit y1 'n' h1 (by decide))]
    rw [hpn]
    rfl
  rw [hpv]
  show (if skipWs (c :: rr) = [] then some (Json.num q) else none) = none
  rw [skipWs_cons_of_not_ws c rr hcws]
  simp

theorem stringMk_toList (t : String) : String.mk t.toList = t := rfl

theorem specTsTail_decomp (rest0 : List Char) (h : specTsTail rest0 = true) :
    ∃ fp zp, rest0 = fp ++ zp ∧ fp.all isTimeChar = true ∧
      (zp = [] ∨ zp = ['Z']) := by
  unfold specTsTail at h
  split at h
  · exact ⟨[], [], rfl, rfl, Or.inl rfl⟩
  · exact ⟨[], ['Z'], rfl, rfl, Or.inr rfl⟩
  · next f1 f2 f3 rest1 =>
    simp only [Bool.and_eq_true, Bool.or_eq_true] at h
    obtain ⟨⟨⟨hf1, hf2⟩, hf3⟩, hz⟩ := h
    rcases hz with hz | hz
    · have hz' : rest1 = [] := by simpa using hz
      subst hz'
      refine ⟨['.', f1, f2, f3], [], by simp, ?_, Or.inl rfl⟩
      simp [isTimeChar, hf1, hf2, hf3]
    · have hz' : rest1 = ['Z'] := by simpa using hz
      subst hz'
      refine ⟨['.', f1, f2, f3], ['Z'], by simp, ?_, Or.inr rfl⟩
      simp [isTimeChar, hf1, hf2, hf3]
  · exact absurd h (by decide)

theorem specTsValid_parts (t : String) (h : specTsValid t = true) :
    ∃ y1 y2 y3 y4 m1 m2 d1 d2 h1 h2 n1 n2 s1 s2 rest0,
      t.toList = y1 :: y2 :: y3 :: y4 :: '-' :: m1 :: m2 :: '-' :: d1 :: d2 ::
        'T' :: h1 :: h2 :: ':' :: n1 :: n2 :: ':' :: s1 :: s2 :: rest0 ∧
      [y1, y2, y3, y4, m1, m2, d1, d2, h1, h2, n1, n2, s1, s2].all
        Char.isDigit = true ∧
      specTsTail rest0 = true := by
  unfold specTsValid at h
  split at h
  · next y1 y2 y3 y4 m1 m2 d1 d2 hh1 hh2 n1 n2 s1 s2 rest0 heq =>
    simp only [Bool.and_eq_true] at h
    exact ⟨y1, y2, y3, y4, m1, m2, d1, d2, hh1, hh2, n1, n2, s1, s2, rest0,
      heq, h.1, h.2⟩
  · exact absurd h (by decide)

theorem specTsValid_head (t : String) (h : specTsValid t = true) :
    ∃ c tl, t.toList = c :: tl ∧ c.isDigit = true := by
  obtain ⟨y1, y2, y3, y4, m1, m2, d1, d2, hh1, hh2, n1, n2, s1, s2, rest0,
    heq, hall, _⟩ := specTsValid_parts t h
  simp only [List.all_cons, Bool.and_eq_true] at hall
  exact ⟨y1, _, heq, hall.1⟩

theorem specSrcValid_head (s : String) (h : specSrcValid s = true) :
    ∃ c tl, s.toList = c :: tl ∧ isTagChar c = false := by
  unfold specSrcValid at h
  split at h
  · next c1 c2 c3 c4 c5 c6 heq =>
    simp only [Bool.and_eq_true] at h
    have h1 := h.1.1.1.1.1
    rcases (by simpa [isCh, Bool.or_eq_true, decide_eq_true_eq] using h1 :
        c1 = 'O' ∨ c1 = 'o') with h' | h' <;> subst h' <;>
      exact ⟨_, _, heq, by decide⟩
  · next c1 c2 c3 c4 heq =>
    simp only [Bool.and_eq_true] at h
    have h1 := h.1.1.1
    rcases (by simpa [isCh, Bool.or_eq_true, decide_eq_true_eq] using h1 :
        c1 = 'U' ∨ c1 = 'u') with h' | h' <;> subst h' <;>
      exact ⟨_, _, heq, by decide⟩
  · exact absurd h (by decide)

theorem tsMatch_eval_z (y1 y2 y3 y4 m1 m2 d1 d2 : Char) (r a r2 : List Char)
    (hall : [y1, y2, y3, y4, m1, m2, d1, d2].all Char.isDigit = true)
    (hta : r.takeWhile isTimeChar = a) (hane : a.isEmpty = false)
    (hdb : r.dropWhile isTimeChar = 'Z' :: r2) :
    tsMatch (y1 :: y2 :: y3 :: y4 :: '-' :: m1 :: m2 :: '-' :: d1 :: d2 ::
      'T' :: r) = some
        (String.mk ([y1, y2, y3, y4, '-', m1, m2, '-', d1, d2, 'T'] ++ a ++
          ['Z']), eatWs r2) := by
  unfold tsMatch
  split
  · next a1 a2 a3 a4 b1 b2 c1 c2 rr heq =>
    simp only [List.cons.injEq, and_true, true_and] at heq
    obtain ⟨rfl, rfl, rfl, rfl, rfl, rfl, rfl, rfl, rfl⟩ := heq
    rw [if_pos hall, hta, hdb]
    show (if a.isEmpty = true then none
      else some (String.mk ([y1, y2, y3, y4, '-', m1, m2, '-', d1, d2, 'T'] ++
        a ++ ['Z']), eatWs r2)) = _
    rw [hane]
    simp
  · next hno => exact absurd rfl (hno y1 y2 y3 y4 m1 m2 d1 d2 r)

theorem tsMatch_eval_noz (y1 y2 y3 y4 m1 m2 d1 d2 c : Char)
    (r a bs : List Char)
    (hall : [y1, y2, y3, y4, m1, m2, d1, d2].all Char.isDigit = true)
    (hta : r.takeWhile isTimeChar = a) (hane : a.isEmpty = false)
    (hdb : r.dropWhile isTimeChar = c :: bs) (hcz : c ≠ 'Z') :
    tsMatch (y1 :: y2 :: y3 :: y4 :: '-' :: m1 :: m2 :: '-' :: d1 :: d2 ::
      'T' :: r) = some
        (String.mk ([y1, y2, y3, y4, '-', m1, m2, '-', d1, d2, 'T'] ++ a ++
          []), eatWs (c :: bs)) := by
  unfold tsMatch
  split
  · next a1 a2 a3 a4 b1 b2 c1 c2 rr heq =>
    simp only [List.cons.injEq, and_true, true_and] at heq
    obtain ⟨rfl, rfl, rfl, rfl, rfl, rfl, rfl, rfl, rfl⟩ := heq
    rw [if_pos hall, hta, hdb]
    split
    · next zPart rest2 heq2 =>
      split at heq2
      · next heq3 => exact absurd (List.head_eq_of_cons_eq heq3) hcz
      · simp only [Prod.mk.injEq] at heq2
        obtain ⟨rfl, rfl⟩ := heq2
        show (if a.isEmpty = true then none
          else some (String.mk ([y1, y2, y3, y4, '-', m1, m2, '-', d1, d2,
            'T'] ++ a ++ []), eatWs (c :: bs))) = _
        rw [hane]
        simp
  · next hno => exact absurd rfl (hno y1 y2 y3 y4 m1 m2 d1 d2 r)

theorem uuidMatch_exact (tag : String) (w rest : List Char)
    (ht : specTagValid tag = true) (hw : w.all isWsChar = true)
    (hrest : ∀ c, rest.head? = some c → isWsChar c = false) :
    uuidMatch ('[' :: (tag.toList ++ (']' :: (w ++ rest)))) =
      some (tag, rest) := by
  unfold specTagValid at ht
  simp only [Bool.and_eq_true, Bool.not_eq_true'] at ht
  obtain ⟨hne, hall⟩ := ht
  obtain ⟨htw, hdw⟩ := takeWhile_append_all isTagChar tag.toList
    (']' :: (w ++ rest)) hall
    (fun c hc => by
      simp only [List.head?_cons, Option.some.injEq] at hc
      subst hc
      decide)
  unfold uuidMatch
  split
  · next rr heq =>
    obtain rfl : tag.toList ++ (']' :: (w ++ rest)) = rr :=
      List.tail_eq_of_cons_eq heq
    rw [htw, hdw]
    show (if tag.toList.isEmpty = true then none
      else some (String.mk tag.toList, eatWs (w ++ rest))) = _
    rw [hne]
    simp only [Bool.false_eq_true, if_false]
    rw [eatWs_append w rest hw hrest, stringMk_toList]
  · next hno =>
    exact absurd rfl (hno (tag.toList ++ (']' :: (w ++ rest))))

theorem srcMatchUser_exact (c1 c2 c3 c4 : Char) (w rest : List Char)
    (hs : (isCh c1 'U' 'u' && isCh c2 'S' 's' && isCh c3 'E' 'e' &&
      isCh c4 'R' 'r') = true)
    (hw : w.all isWsChar = true)
    (hrest : ∀ c, rest.head? = some c → isWsChar c = false) :
    srcMatchUser ('[' :: c1 :: c2 :: c3 :: c4 :: ']' :: (w ++ rest)) =
      some (LogSource.user, rest) := by
  unfold srcMatchUser
  split
  · next a1 a2 a3 a4 rr heq =>
    simp only [List.cons.injEq, true_and, and_true] at heq
    obtain ⟨rfl, rfl, rfl, rfl, rfl⟩ := heq
    rw [if_pos hs, eatWs_append w rest hw hrest]
  · next hno => exact absurd rfl (hno c1 c2 c3 c4 (w ++ rest))

theorem srcMatch_exact (s : String) (w rest : List Char)
    (hs : specSrcValid s = true) (hw : w.all isWsChar = true)
    (hrest : ∀ c, rest.head? = some c → isWsChar c = false) :
    srcMatch ('[' :: (s.toList ++ (']' :: (w ++ rest)))) =
      some (srcOf s, rest) := by
  unfold specSrcValid at hs
  split at hs
  · next c1 c2 c3 c4 c5 c6 heq =>
    have hsrcof : srcOf s = LogSource.openai := by
      unfold srcOf
      rw [heq]
    rw [heq, hsrcof]
    simp only [List.cons_append, List.nil_append]
    unfold srcMatch
    split
    · next a1 a2 a3 a4 a5 a6 rr heq2 =>
      simp only [List.cons.injEq, true_and, and_true] at heq2
      obtain ⟨rfl, rfl, rfl, rfl, rfl, rfl, rfl⟩ := heq2
      rw [if_pos hs, eatWs_append w rest hw hrest]
    · next hno =>
      exact absurd rfl (hno c1 c2 c3 c4 c5 c6 (w ++ rest))
  · next c1 c2 c3 c4 heq =>
    have hsrcof : srcOf s = LogSource.user := by
      unfold srcOf
      rw [heq]
    have hc1 : isCh c1 'O' 'o' = false := by
      have h1 : isCh c1 'U' 'u' = true := by
        simp only [Bool.and_eq_true] at hs
        exact hs.1.1.1
      rcases (by simpa [isCh, Bool.or_eq_true, decide_eq_true_eq] using h1 :
          c1 = 'U' ∨ c1 = 'u') with h' | h' <;> subst h' <;> decide
    rw [heq, hsrcof]
    simp only [List.cons_append, List.nil_append]
    have huser : srcMatchUser
        ('[' :: c1 :: c2 :: c3 :: c4 :: ']' :: (w ++ rest)) =
        some (LogSource.user, rest) :=
      srcMatchUser_exact c1 c2 c3 c4 w rest hs hw hrest
    unfold srcMatch
    split
    · next a1 a2 a3 a4 a5 a6 rr heq2 =>
      simp only [List.cons.injEq, true_and] at heq2
      obtain ⟨rfl, rfl, rfl, rfl, rfl, -⟩ := heq2
      rw [if_neg]
      · exact huser
      · simp [hc1]
    · exact huser
  · exact absurd hs (by decide)

theorem digit_timeChar (c : Char) (h : c.isDigit = true) :
    isTimeChar c = true := by
  unfold isTimeChar
  rw [h]
  rfl

theorem tsMatch_exact (t : String) (w rest : List Char)
    (ht : specTsValid t = true) (hw : w.all isWsChar = true) (hwne : w ≠ [])
    (hrest : ∀ c, rest.head? = some c → isWsChar c = false) :
    tsMatch (t.toList ++ (w ++ rest)) = some (t, rest) := by
  obtain ⟨y1, y2, y3, y4, m1, m2, d1, d2, H1, H2, n1, n2, s1, s2, rest0,
    heq, hall, htail⟩ := specTsValid_parts t ht
  obtain ⟨fp, zp, hfz, hfpall, hzp⟩ := specTsTail_decomp rest0 htail
  simp only [List.all_cons, List.all_nil, Bool.and_eq_true, and_true] at hall
  obtain ⟨hy1, hy2, hy3, hy4, hm1, hm2, hd1, hd2, hH1, hH2, hn1, hn2, hs1,
    hs2⟩ := hall
  have hall8 : [y1, y2, y3, y4, m1, m2, d1, d2].all Char.isDigit = true := by
    simp only [List.all_cons, List.all_nil, Bool.and_eq_true, and_true]
    exact ⟨hy1, hy2, hy3, hy4, hm1, hm2, hd1, hd2⟩
  have hAall : ([H1, H2, ':', n1, n2, ':', s1, s2] ++ fp).all isTimeChar
      = true := by
    rw [List.all_append]
    refine (Bool.and_eq_true _ _).mpr ⟨?_, hfpall⟩
    simp only [List.all_cons, List.all_nil, Bool.and_eq_true, and_true]
    exact ⟨digit_timeChar _ hH1, digit_timeChar _ hH2, by decide,
      digit_timeChar _ hn1, digit_timeChar _ hn2, by decide,
      digit_timeChar _ hs1, digit_timeChar _ hs2⟩
  have hane : ([H1, H2, ':', n1, n2, ':', s1, s2] ++ fp).isEmpty = false := rfl
  have hrA : H1 :: H2 :: ':' :: n1 :: n2 :: ':' :: s1 :: s2 ::
      (rest0 ++ (w ++ rest)) =
      ([H1, H2, ':', n1, n2, ':', s1, s2] ++ fp) ++ (zp ++ (w ++ rest)) := by
    rw [hfz]
    simp [List.append_assoc]
  rw [heq]
  simp only [List.cons_append]
  rcases hzp with rfl | rfl
  · -- no trailing Z: the dropWhile lands on the first whitespace character
    obtain ⟨wc, w', rfl⟩ : ∃ wc w', w = wc :: w' := by
      cases w with
      | nil => exact absurd rfl hwne
      | cons a b => exact ⟨a, b, rfl⟩
    have hwc : isWsChar wc = true := by
      simp only [List.all_cons, Bool.and_eq_true] at hw
      exact hw.1
    have hbne : ∀ c, (([] : List Char) ++ (wc :: w' ++ rest)).head? = some c →
        isTimeChar c = false := by
      intro c hc
      simp only [List.nil_append, List.cons_append, List.head?_cons,
        Option.some.injEq] at hc
      subst hc
      exact ws_not_timeChar wc hwc
    obtain ⟨htw, hdw⟩ := takeWhile_append_all isTimeChar
      ([H1, H2, ':', n1, n2, ':', s1, s2] ++ fp) ([] ++ (wc :: w' ++ rest))
      hAall hbne
    have htw' : (H1 :: H2 :: ':' :: n1 :: n2 :: ':' :: s1 :: s2 ::
        (rest0 ++ (wc :: w' ++ rest))).takeWhile isTimeChar =
        [H1, H2, ':', n1, n2, ':', s1, s2] ++ fp := by
      rw [hrA]
      simpa using htw
    have hdw' : (H1 :: H2 :: ':' :: n1 :: n2 :: ':' :: s1 :: s2 ::
        (rest0 ++ (wc :: w' ++ rest))).dropWhile isTimeChar =
        wc :: (w' ++ rest) := by
      rw [hrA]
      simpa [List.append_assoc] using hdw
    rw [tsMatch_eval_noz y1 y2 y3 y4 m1 m2 d1 d2 wc _ _ (w' ++ rest) hall8
      htw' hane hdw' (pred_ne isWsChar wc 'Z' hwc (by decide))]
    have heL : [y1, y2, y3, y4, '-', m1, m2, '-', d1, d2, 'T'] ++
        ([H1, H2, ':', n1, n2, ':', s1, s2] ++ fp) ++ ([] : List Char) =
        t.toList := by
      rw [heq, hfz]
      simp [List.append_assoc]
    rw [heL, stringMk_toList]
    have heW : wc :: (w' ++ rest) = (wc :: w') ++ rest := rfl
    rw [heW, eatWs_append (wc :: w') rest hw hrest]
  · -- trailing Z
    have hbne : ∀ c, (['Z'] ++ (w ++ rest)).head? = some c →
        isTimeChar c = false := by
      intro c hc
      simp only [List.cons_append, List.head?_cons, Option.some.injEq] at hc
      subst hc
      decide
    obtain ⟨htw, hdw⟩ := takeWhile_append_all isTimeChar
      ([H1, H2, ':', n1, n2, ':', s1, s2] ++ fp) (['Z'] ++ (w ++ rest))
      hAall hbne
    have htw' : (H1 :: H2 :: ':' :: n1 :: n2 :: ':' :: s1 :: s2 ::
        (rest0 ++ (w ++ rest))).takeWhile isTimeChar =
        [H1, H2, ':', n1, n2, ':', s1, s2] ++ fp := by
      rw [hrA]
      simpa using htw
    have hdw' : (H1 :: H2 :: ':' :: n1 :: n2 :: ':' :: s1 :: s2 ::
        (rest0 ++ (w ++ rest))).dropWhile isTimeChar =
        'Z' :: (w ++ rest) := by
      rw [hrA]
      simpa [List.append_assoc] using hdw
    rw [tsMatch_eval_z y1 y2 y3 y4 m1 m2 d1 d2 _ _ (w ++ rest) hall8
      htw' hane hdw']
    have heL : [y1, y2, y3, y4, '-', m1, m2, '-', d1, d2, 'T'] ++
        ([H1, H2, ':', n1, n2, ':', s1, s2] ++ fp) ++ ['Z'] = t.toList := by
      rw [heq, hfz]
      simp [List.append_assoc]
    rw [heL, stringMk_toList, eatWs_append w rest hw hrest]

theorem presentWs_some (x : String) (w : List Char)
    (h : presentWs (some x) w = true) : w ≠ [] ∧ w.all isWsChar = true := by
  unfold presentWs at h
  simp only [Bool.and_eq_true, Bool.not_eq_true'] at h
  refine ⟨fun hx => ?_, h.2⟩
  subst hx
  simp at h

theorem presentWs_none (w : List Char) (h : presentWs none w = true) :
    w = [] := by
  unfold presentWs at h
  simpa using h

theorem isEmpty_append_right (pre l : List Char) (h : l ≠ []) :
    (pre ++ l).isEmpty = false := by
  cases hq : pre ++ l with
  | nil => exact absurd (List.append_eq_nil.mp hq).2 h
  | cons x xs => rfl

theorem decodeParts_assemble (line : String) (a : Option String)
    (r1 : List Char) (b : Option String) (r2 : List Char)
    (c : Option LogSource) (r3 : List Char)
    (h0 : trimList line.toList = line.toList)
    (h1 : tsStep line.toList = (a, r1))
    (h2 : tagStep r1 = (b, r2))
    (h3 : srcStep r2 = (c, r3)) :
    decodeParts line = (a, b, c, r3) := by
  unfold decodeParts
  rw [h0, h1]
  simp only [h2, h3]

theorem parseLogLine_of_parts (line : String) (n : Nat) (a b : Option String)
    (c : Option LogSource) (r3 : List Char) (v : Json)
    (hdp : decodeParts line = (a, b, c, r3))
    (hne : (trimList line.toList).isEmpty = false)
    (hj : jsonParse (String.mk r3) = some v) :
    parseLogLine line n = some ⟨a, b, c, v, line, n⟩ := by
  unfold parseLogLine
  rw [parseLogLineW_eq]
  rw [if_neg (fun hcon => Bool.false_ne_true (hne ▸ hcon))]
  rw [hdp]
  show (match jsonParse (String.mk r3) with
    | some v => ((some (ParsedLogLine.mk a b c v line n), []) :
        Option ParsedLogLine × List DecodeWarning)
    | none => (none, [DecodeWarning.mk n (String.mk (r3.take 100))])).1 =
      some (ParsedLogLine.mk a b c v line n)
  rw [hj]

theorem parseLogLine_leaf (line : String) (n : Nat) (a b : Option String)
    (c : Option LogSource) (payload : String) (v : Json)
    (pre r1 r2 : List Char)
    (hL : line.toList = pre ++ payload.toList)
    (hheadL : ∀ ch, line.toList.head? = some ch → isWsChar ch = false)
    (hplast : ∀ ch, payload.toList.getLast? = some ch → isWsChar ch = false)
    (hpne : payload.toList ≠ [])
    (h1 : tsStep line.toList = (a, r1))
    (h2 : tagStep r1 = (b, r2))
    (h3 : srcStep r2 = (c, payload.toList))
    (hv : jsonParse payload = some v) :
    parseLogLine line n = some ⟨a, b, c, v, line, n⟩ := by
  have hlastL : ∀ ch, line.toList.getLast? = some ch → isWsChar ch = false := by
    intro ch hch
    rw [hL, List.getLast?_append_of_ne_nil pre hpne] at hch
    exact hplast ch hch
  have htrim : trimList line.toList = line.toList :=
    trimList_eq_self _ hheadL hlastL
  have hne : (trimList line.toList).isEmpty = false := by
    rw [htrim, hL]
    exact isEmpty_append_right pre _ hpne
  exact parseLogLine_of_parts line n a b c payload.toList v
    (decodeParts_assemble line a r1 b r2 c payload.toList htrim h1 h2 h3)
    hne (by rw [stringMk_toList]; exact hv)

/-- C6 (corrected): for every line assembled from the §6 grammar the
decoder extracts exactly the present prefix tokens, leaves absent ones
unset, and decodes the JSON payload — provided the payload does not itself
begin with a bracketed session-tag-shaped prefix while both bracket tags
are absent.  Without that proviso the sentence is false: the decoder hands
a grammar-valid line such as `[100]` to the session-tag regex, which
consumes part of the JSON payload and leaves an unparseable remainder
(see the counterexample theorem). -/
theorem parseLogLine_grammar_extraction (line : String) (n : Nat)
    (ots otag osrc : Option String) (payload : String) (v : Json)
    (hg : SpecLineGrammar line ots otag osrc payload)
    (hguard : otag = none → osrc = none → uuidMatch payload.toList = none)
    (hv : jsonParse payload = some v) :
    parseLogLine line n = some ⟨ots, otag, osrc.map srcOf, v, line, n⟩ := by
  obtain ⟨w1, w2, w3, hline, hpw1, hpw2, hpw3, htsv, htagv, hsrcv, htrimp,
    hjs⟩ := hg
  have hpne : payload.toList ≠ [] := by
    intro h
    have hnone : jsonParse payload = none := by
      unfold jsonParse
      rw [h]
      rfl
    rw [hnone] at hv
    cases hv
  have hphead : ∀ c, payload.toList.head? = some c → isWsChar c = false :=
    trimList_fixpoint_head _ htrimp
  have hplast : ∀ c, payload.toList.getLast? = some c → isWsChar c = false :=
    trimList_fixpoint_last _ htrimp
  have hsm : srcMatch payload.toList = none := by
    rcases h : srcMatch payload.toList with _ | p
    · rfl
    · have hnone := jsonParse_none_of_srcMatch payload (by rw [h]; simp)
      rw [hnone] at hv
      cases hv
  have htm : tsMatch payload.toList = none := by
    rcases h : tsMatch payload.toList with _ | p
    · rfl
    · have hnone := jsonParse_none_of_tsMatch payload (by rw [h]; simp)
      rw [hnone] at hv
      cases hv
  rcases osrc with _ | s
  · have hw3e := presentWs_none w3 hpw3
    subst hw3e
    have h3 : srcStep payload.toList = (none, payload.toList) :=
      srcStep_none _ hsm
    rcases otag with _ | g
    · have hw2e := presentWs_none w2 hpw2
      subst hw2e
      have h2 : tagStep payload.toList = (none, payload.toList) :=
        tagStep_none _ (hguard rfl rfl)
      rcases ots with _ | t
      · have hw1e := presentWs_none w1 hpw1
        subst hw1e
        have hL : line.toList = [] ++ payload.toList := by
          rw [hline]
          unfold specLineBuild
          simp
        have h1 : tsStep line.toList = (none, payload.toList) := by
          rw [hL, List.nil_append]
          exact tsStep_none _ htm
        exact parseLogLine_leaf line n none none none payload v []
          payload.toList payload.toList hL
          (fun ch hch => hphead ch
            (by rw [hL, List.nil_append] at hch; exact hch))
          hplast hpne h1 h2 h3 hv
      · have htv := htsv t rfl
        obtain ⟨hw1ne, hw1all⟩ := presentWs_some t w1 hpw1
        have hL : line.toList = (t.toList ++ w1) ++ payload.toList := by
          rw [hline]
          unfold specLineBuild
          simp [List.append_assoc]
        have h1 : tsStep line.toList = (some t, payload.toList) := by
          rw [hL, List.append_assoc]
          exact tsStep_some _ t _ (tsMatch_exact t w1 payload.toList htv
            hw1all hw1ne hphead)
        obtain ⟨ct, tlt, hctl, hcd⟩ := specTsValid_head t htv
        exact parseLogLine_leaf line n (some t) none none payload v
          (t.toList ++ w1) payload.toList payload.toList hL
          (fun ch hch => by
            rw [hL, hctl] at hch
            simp only [List.cons_append, List.head?_cons,
              Option.some.injEq] at hch
            subst hch
            exact digit_not_wsChar ct hcd)
          hplast hpne h1 h2 h3 hv
    · have hgv := htagv g rfl
      obtain ⟨hw2ne, hw2all⟩ := presentWs_some g w2 hpw2
      have h2 : tagStep ('[' :: (g.toList ++ (']' :: (w2 ++
          payload.toList)))) = (some g, payload.toList) :=
        tagStep_some _ g _ (uuidMatch_exact g w2 payload.toList hgv hw2all
          hphead)
      rcases ots with _ | t
      · have hw1e := presentWs_none w1 hpw1
        subst hw1e
        have hL : line.toList = ('[' :: (g.toList ++ (']' :: w2))) ++
            payload.toList := by
          rw [hline]
          unfold specLineBuild
          simp [List.append_assoc]
        have hL' : line.toList = '[' :: (g.toList ++ (']' :: (w2 ++
            payload.toList))) := by
          rw [hL]
          simp [List.append_assoc]
        have h1 : tsStep line.toList = (none, '[' :: (g.toList ++ (']' ::
            (w2 ++ payload.toList)))) := by
          rw [hL']
          exact tsStep_none _ (tsMatch_none_not_digit '[' _ (by decide))
        exact parseLogLine_leaf line n none (some g) none payload v
          ('[' :: (g.toList ++ (']' :: w2)))
          ('[' :: (g.toList ++ (']' :: (w2 ++ payload.toList))))
          payload.toList hL
          (fun ch hch => by
            rw [hL'] at hch
            simp only [List.head?_cons, Option.some.injEq] at hch
            subst hch
            decide)
          hplast hpne h1 h2 h3 hv
      · have htv := htsv t rfl
        obtain ⟨hw1ne, hw1all⟩ := presentWs_some t w1 hpw1
        have hR1head : ∀ ch, ('[' :: (g.toList ++ (']' :: (w2 ++
            payload.toList)))).head? = some ch → isWsChar ch = false := by
          intro ch hch
          simp only [List.head?_cons, Option.some.injEq] at hch
          subst hch
          decide
        have hL : line.toList = (t.toList ++ (w1 ++ ('[' :: (g.toList ++
            (']' :: w2))))) ++ payload.toList := by
          rw [hline]
          unfold specLineBuild
          simp [List.append_assoc]
        have hL' : line.toList = t.toList ++ (w1 ++ ('[' :: (g.toList ++
            (']' :: (w2 ++ payload.toList))))) := by
          rw [hL]
          simp [List.append_assoc]
        have h1 : tsStep line.toList = (some t, '[' :: (g.toList ++ (']' ::
            (w2 ++ payload.toList)))) := by
          rw [hL']
          exact tsStep_some _ t _ (tsMatch_exact t w1 _ htv hw1all hw1ne
            hR1head)
        obtain ⟨ct, tlt, hctl, hcd⟩ := specTsValid_head t htv
        exact parseLogLine_leaf line n (some t) (some g) none payload v
          (t.toList ++ (w1 ++ ('[' :: (g.toList ++ (']' :: w2)))))
          ('[' :: (g.toList ++ (']' :: (w2 ++ payload.toList))))
          payload.toList hL
          (fun ch hch => by
            rw [hL', hctl] at hch
            simp only [List.cons_append, List.head?_cons,
              Option.some.injEq] at hch
            subst hch
            exact digit_not_wsChar ct hcd)
          hplast hpne h1 h2 h3 hv
  · have hsv := hsrcv s rfl
    obtain ⟨hw3ne, hw3all⟩ := presentWs_some s w3 hpw3
    have h3 : srcStep ('[' :: (s.toList ++ (']' :: (w3 ++
        payload.toList)))) = (some (srcOf s), payload.toList) :=
      srcStep_some _ _ _ (srcMatch_exact s w3 payload.toList hsv hw3all
        hphead)
    have hR2head : ∀ ch, ('[' :: (s.toList ++ (']' :: (w3 ++
        payload.toList)))).head? = some ch → isWsChar ch = false := by
      intro ch hch
      simp only [List.head?_cons, Option.some.injEq] at hch
      subst hch
      decide
    rcases otag with _ | g
    · have hw2e := presentWs_none w2 hpw2
      subst hw2e
      have huuR2 : uuidMatch ('[' :: (s.toList ++ (']' :: (w3 ++
          payload.toList)))) = none := by
        obtain ⟨cs1, tls, hstl, hctag⟩ := specSrcValid_head s hsv
        rw [hstl]
        simp only [List.cons_append]
        exact uuidMatch_none_not_tag cs1 _ hctag
      have h2 : tagStep ('[' :: (s.toList ++ (']' :: (w3 ++
          payload.toList)))) = (none, '[' :: (s.toList ++ (']' :: (w3 ++
          payload.toList)))) := tagStep_none _ huuR2
      rcases ots with _ | t
      · have hw1e := presentWs_none w1 hpw1
        subst hw1e
        have hL : line.toList = ('[' :: (s.toList ++ (']' :: w3))) ++
            payload.toList := by
          rw [hline]
          unfold specLineBuild
          simp [List.append_assoc]
        have hL' : line.toList = '[' :: (s.toList ++ (']' :: (w3 ++
            payload.toList))) := by
          rw [hL]
          simp [List.append_assoc]
        have h1 : tsStep line.toList = (none, '[' :: (s.toList ++ (']' ::
            (w3 ++ payload.toList)))) := by
          rw [hL']
          exact tsStep_none _ (tsMatch_none_not_digit '[' _ (by decide))
        exact parseLogLine_leaf line n none none (some (srcOf s)) payload v
          ('[' :: (s.toList ++ (']' :: w3)))
          ('[' :: (s.toList ++ (']' :: (w3 ++ payload.toList))))
          ('[' :: (s.toList ++ (']' :: (w3 ++ payload.toList)))) hL
          (fun ch hch => by
            rw [hL'] at hch
            simp only [List.head?_cons, Option.some.injEq] at hch
            subst hch
            decide)
          hplast hpne h1 h2 h3 hv
      · have htv := htsv t rfl
        obtain ⟨hw1ne, hw1all⟩ := presentWs_some t w1 hpw1
        have hL : line.toList = (t.toList ++ (w1 ++ ('[' :: (s.toList ++
            (']' :: w3))))) ++ payload.toList := by
          rw [hline]
          unfold specLineBuild
          simp [List.append_assoc]
        have hL' : line.toList = t.toList ++ (w1 ++ ('[' :: (s.toList ++
            (']' :: (w3 ++ payload.toList))))) := by
          rw [hL]
          simp [List.append_assoc]
        have h1 : tsStep line.toList = (some t, '[' :: (s.toList ++ (']' ::
            (w3 ++ payload.toList)))) := by
          rw [hL']
          exact tsStep_some _ t _ (tsMatch_exact t w1 _ htv hw1all hw1ne
            hR2head)
        obtain ⟨ct, tlt, hctl, hcd⟩ := specTsValid_head t htv
        exact parseLogLine_leaf line n (some t) none (some (srcOf s))
          payload v
          (t.toList ++ (w1 ++ ('[' :: (s.toList ++ (']' :: w3)))))
          ('[' :: (s.toList ++ (']' :: (w3 ++ payload.toList))))
          ('[' :: (s.toList ++ (']' :: (w3 ++ payload.toList)))) hL
          (fun ch hch => by
            rw [hL', hctl] at hch
            simp only [List.cons_append, List.head?_cons,
              Option.some.injEq] at hch
            subst hch
            exact digit_not_wsChar ct hcd)
          hplast hpne h1 h2 h3 hv
    · have hgv := htagv g rfl
      obtain ⟨hw2ne, hw2all⟩ := presentWs_some g w2 hpw2
      have h2 : tagStep ('[' :: (g.toList ++ (']' :: (w2 ++ ('[' ::
          (s.toList ++ (']' :: (w3 ++ payload.toList)))))))) =
          (some g, '[' :: (s.toList ++ (']' :: (w3 ++
            payload.toList)))) :=
        tagStep_some _ g _ (uuidMatch_exact g w2 _ hgv hw2all hR2head)
      rcases ots with _ | t
      · have hw1e := presentWs_none w1 hpw1
        subst hw1e
        have hL : line.toList = ('[' :: (g.toList ++ (']' :: (w2 ++ ('[' ::
            (s.toList ++ (']' :: w3))))))) ++ payload.toList := by
          rw [hline]
          unfold specLineBuild
          simp [List.append_assoc]
        have hL' : line.toList = '[' :: (g.toList ++ (']' :: (w2 ++ ('[' ::
            (s.toList ++ (']' :: (w3 ++ payload.toList))))))) := by
          rw [hL]
          simp [List.append_assoc]
        have h1 : tsStep line.toList = (none, '[' :: (g.toList ++ (']' ::
            (w2 ++ ('[' :: (s.toList ++ (']' :: (w3 ++
            payload.toList)))))))) := by
          rw [hL']
          exact tsStep_none _ (tsMatch_none_not_digit '[' _ (by decide))
        exact parseLogLine_leaf line n none (some g) (some (srcOf s))
          payload v
          ('[' :: (g.toList ++ (']' :: (w2 ++ ('[' :: (s.toList ++
            (']' :: w3)))))))
          ('[' :: (g.toList ++ (']' :: (w2 ++ ('[' :: (s.toList ++
            (']' :: (w3 ++ payload.toList))))))))
          ('[' :: (s.toList ++ (']' :: (w3 ++ payload.toList)))) hL
          (fun ch hch => by
            rw [hL'] at hch
            simp only [List.head?_cons, Option.some.injEq] at hch
            subst hch
            decide)
          hplast hpne h1 h2 h3 hv
      · have htv := htsv t rfl
        obtain ⟨hw1ne, hw1all⟩ := presentWs_some t w1 hpw1
        have hR1head : ∀ ch, ('[' :: (g.toList ++ (']' :: (w2 ++ ('[' ::
            (s.toList ++ (']' :: (w3 ++ payload.toList)))))))).head? =
            some ch → isWsChar ch = false := by
          intro ch hch
          simp only [List.head?_cons, Option.some.injEq] at hch
          subst hch
          decide
        have hL : line.toList = (t.toList ++ (w1 ++ ('[' :: (g.toList ++
            (']' :: (w2 ++ ('[' :: (s.toList ++ (']' :: w3))))))))) ++
            payload.toList := by
          rw [hline]
          unfold specLineBuild
          simp [List.append_assoc]
        have hL' : line.toList = t.toList ++ (w1 ++ ('[' :: (g.toList ++
            (']' :: (w2 ++ ('[' :: (s.toList ++ (']' :: (w3 ++
            payload.toList))))))))) := by
          rw [hL]
          simp [List.append_assoc]
        have h1 : tsStep line.toList = (some t, '[' :: (g.toList ++ (']' ::
            (w2 ++ ('[' :: (s.toList ++ (']' :: (w3 ++
            payload.toList)))))))) := by
          rw [hL']
          exact tsStep_some _ t _ (tsMatch_exact t w1 _ htv hw1all hw1ne
            hR1head)
        obtain ⟨ct, tlt, hctl, hcd⟩ := specTsValid_head t htv
        exact parseLogLine_leaf line n (some t) (some g) (some (srcOf s))
          payload v
          (t.toList ++ (w1 ++ ('[' :: (g.toList ++ (']' :: (w2 ++ ('[' ::
            (s.toList ++ (']' :: w3)))))))))
          ('[' :: (g.toList ++ (']' :: (w2 ++ ('[' :: (s.toList ++
            (']' :: (w3 ++ payload.toList))))))))
          ('[' :: (s.toList ++ (']' :: (w3 ++ payload.toList)))) hL
          (fun ch hch => by
            rw [hL', hctl] at hch
            simp only [List.cons_append, List.head?_cons,
              Option.some.injEq] at hch
            subst hch
            exact digit_not_wsChar ct hcd)
          hplast hpne h1 h2 h3 hv

/-- C6 counterexample: the line `[100]` matches the §6 grammar with all
three prefix tokens absent and payload `[100]`, a valid JSON array — yet
the decoder rejects the line, because the session-tag regex
`/^\[([a-f0-9-]+)\]\s*/i` consumes the bracketed payload and JSON parsing
is then attempted on the empty remainder. -/
theorem parseLogLine_grammar_counterexample :
    SpecLineGrammar "[100]" none none none "[100]" ∧
    parseLogLine "[100]" 1 = none := by
  constructor
  · exact ⟨[], [], [], rfl, rfl, rfl, rfl, fun t h => Option.noConfusion h,
      fun t h => Option.noConfusion h, fun t h => Option.noConfusion h,
      rfl, rfl⟩
  · rfl

theorem parseLogLine_grammar_extraction_witness :
    parseLogLine
      "2024-01-15T10:30:00.000Z [abc-123] [OPENAI] \x7b\"type\":\"session.created\",\"event_id\":\"e1\"\x7d"
      1 =
      some ⟨some "2024-01-15T10:30:00.000Z", some "abc-123",
        some LogSource.openai,
        .obj [("type", .str "session.created"), ("event_id", .str "e1")],
        "2024-01-15T10:30:00.000Z [abc-123] [OPENAI] \x7b\"type\":\"session.created\",\"event_id\":\"e1\"\x7d",
        1⟩ :=
  parseLogLine_grammar_extraction
    "2024-01-15T10:30:00.000Z [abc-123] [OPENAI] \x7b\"type\":\"session.created\",\"event_id\":\"e1\"\x7d"
    1 (some "2024-01-15T10:30:00.000Z") (some "abc-123") (some "OPENAI")
    "\x7b\"type\":\"session.created\",\"event_id\":\"e1\"\x7d"
    (.obj [("type", .str "session.created"), ("event_id", .str "e1")])
    ⟨[' '], [' '], [' '], by decide, rfl, rfl, rfl,
      fun t h => by cases h; decide, fun t h => by cases h; decide,
      fun t h => by cases h; decide, rfl, rfl⟩
    (fun h => Option.noConfusion h) rfl
